import Mathlib

/-!
Verification of the data-cleaning / profiling pipeline and upload / analysis
error handling of `backend/server.py` (rravinAI).

The pandas `DataFrame` is embedded row-major: a header of column metadata
(name and whether the pandas dtype is numeric) and a list of rows, each row a
list of cells.  A cell is a missing marker (`NaN` / `pd.NA`), a rational
number (numeric dtype values), or a string (object dtype values).  Machine
floats are idealised as rationals.  Each cleaning step of `clean_dataframe`
(lines 87-177) is a separate definition; the structured `LogEntry` type
models the paired `issues_found` / `actions_taken` f-strings by their data
content (each constructor corresponds to one pair of appended messages).
-/

/-- A cell of a dataframe: missing marker, numeric value, or string value. -/
inductive Cell where
  | na : Cell
  | num : ℚ → Cell
  | str : String → Cell
deriving DecidableEq, Repr

/-- `True` exactly on the missing marker (`pd.isna`). -/
def Cell.isna : Cell → Bool
  | .na => true
  | _ => false

/-- Column metadata: its name and whether its pandas dtype is numeric
(`pd.api.types.is_numeric_dtype`); non-numeric columns are object dtype. -/
structure ColMeta where
  name : String
  numeric : Bool
deriving DecidableEq, Repr

instance : Inhabited ColMeta := ⟨{ name := "", numeric := false }⟩

/-- Row-major embedding of a pandas DataFrame.  `len(df)` is `rows.length`
(kept even when all columns are dropped), `len(df.columns)` is
`header.length`. -/
structure DataFrame where
  header : List ColMeta
  rows : List (List Cell)
deriving DecidableEq, Repr

/-- Cell of row `r` at column position `j`; positions beyond the stored row
read as missing, mirroring a rectangular frame. -/
def getCell (r : List Cell) (j : Nat) : Cell :=
  r.getD j Cell.na

/-- Rows are well-formed when each one has exactly one cell per column. -/
def DataFrame.wf (df : DataFrame) : Prop :=
  ∀ r ∈ df.rows, r.length = df.header.length

/-- A cell is admissible for a column dtype: missing always, numbers in
numeric columns, strings in object columns (what `pd.read_csv` /
`pd.read_excel` produce). -/
def cellOk (numeric : Bool) : Cell → Bool
  | .na => true
  | .num _ => numeric
  | .str _ => !numeric

/-- Every cell is admissible for its column's dtype. -/
def DataFrame.typed (df : DataFrame) : Prop :=
  ∀ r ∈ df.rows, ∀ j < df.header.length,
    cellOk (df.header.getD j default).numeric (getCell r j) = true

instance (df : DataFrame) : Decidable df.wf := by
  unfold DataFrame.wf
  infer_instance

instance (df : DataFrame) : Decidable df.typed := by
  unfold DataFrame.typed
  infer_instance

/-- Keep exactly the entries of `l` whose mask position is `true`
(column selection, as `df.dropna(axis=1)` / `df.drop(columns=...)` do). -/
def applyMask : List Bool → List α → List α
  | b :: m, x :: xs => if b then x :: applyMask m xs else applyMask m xs
  | _, _ => []

/-- Replace the entry at position `j` (used for `df[col] = ...`). -/
def updAt : Nat → (α → α) → List α → List α
  | _, _, [] => []
  | 0, f, x :: xs => f x :: xs
  | n + 1, f, x :: xs => x :: updAt n f xs

/-- Order-preserving first-occurrence deduplication
(`df.drop_duplicates()`). -/
def dedupFirst (l : List α) [DecidableEq α] : List α :=
  l.foldl (fun acc x => if x ∈ acc then acc else acc ++ [x]) []

/-- Insert into a sorted list of rationals. -/
def insertSorted (q : ℚ) : List ℚ → List ℚ
  | [] => [q]
  | x :: xs => if q ≤ x then q :: x :: xs else x :: insertSorted q xs

/-- Sort rationals ascending. -/
def sortQ (l : List ℚ) : List ℚ :=
  l.foldr insertSorted []

/-- `Series.median()`: sort the non-missing values; odd count takes the
middle, even count averages the two middle values.  (The empty case is
unreachable in the cleaning code; `0` stands in for pandas' `NaN`.) -/
def medianOf (l : List ℚ) : ℚ :=
  let s := sortQ l
  let n := s.length
  if n = 0 then 0
  else if n % 2 = 1 then s.getD (n / 2) 0
  else (s.getD (n / 2 - 1) 0 + s.getD (n / 2) 0) / 2

/-- `Series.mode()[0]`: a most frequent value of `l`, or `none` when `l` is
empty.  (Among equally frequent values pandas returns the least after
sorting; here the first occurrence is kept — the claims under study do not
depend on the tie-break.) -/
def modeVal (l : List String) : Option String :=
  match dedupFirst l with
  | [] => none
  | x :: xs => some (xs.foldl (fun best v => if l.count v > l.count best then v else best) x)

/-- ASCII whitespace, modelling the characters Python's `str.strip` and the
regex class `\s` treat as whitespace in the data at hand. -/
def isSpaceChar (c : Char) : Bool :=
  c = ' ' || c = '\t' || c = '\n' || c = '\r'

/-- Python `str.strip()`: drop leading and trailing whitespace. -/
def stripStr (s : String) : String :=
  String.mk (((s.data.dropWhile isSpaceChar).reverse.dropWhile isSpaceChar).reverse)

/-- A character matched by the regex class `\w` (ASCII): alphanumeric or
underscore. -/
def isWordChar (c : Char) : Bool :=
  c.isAlphanum || c = '_'

/-- Line 166: `df.columns.str.strip().str.replace(r'[^\w\s]', '',
regex=True).str.replace(' ', '_')` — trim, delete characters that are
neither word nor whitespace, then replace each space character (only the
space, not other whitespace) by an underscore. -/
def normalizeName (s : String) : String :=
  String.mk (((stripStr s).data.filter (fun c => isWordChar c || isSpaceChar c)).map
    (fun c => if c = ' ' then '_' else c))

/-- The strings line 152 replaces by `pd.NA` (besides the empty string). -/
def sentinelStrings : List String :=
  ["nan", "None", "NaN", "null"]

/-- Lines 150-152 applied to one cell of an object column:
`astype(str).str.strip()` then `replace(['', 'nan', 'None', 'NaN', 'null'],
pd.NA)`.  A missing cell round-trips to missing (`astype(str)` renders it
`"nan"`, which is then replaced by `pd.NA`).  Numeric cells do not occur in
object columns of a typed frame and are left unchanged. -/
def normCell : Cell → Cell
  | .na => .na
  | .num q => .num q
  | .str s =>
      let t := stripStr s
      if t = "" || t ∈ sentinelStrings then .na else .str t

/-- One `(issues_found, actions_taken)` message pair of the cleaning report,
by data content:
* `emptyRows n` — "`n` completely empty rows" / "Removed `n` empty rows"
* `emptyCols n names` — "`n` empty columns: `names`" / "Removed `n` empty columns"
* `droppedHighNull c p` — "Column '`c`' had `p`% null values" / "Removed column '`c`' (>50% nulls)"
* `filledMedian c n m` — "Column '`c`' had `n` null values" / "Filled '`c`' nulls with median (`m`)"
* `filledMode c n v` — "Column '`c`' had `n` null values" / "Filled '`c`' nulls with '`v`'"
* `duplicateRows n` — "`n` duplicate rows" / "Removed `n` duplicate rows"
* `rowsWithNulls n` — "`n` rows with remaining nulls" / "Removed `n` rows with remaining nulls"
* `noIssues` — "No data quality issues found" / "Data was already clean" -/
inductive LogEntry where
  | emptyRows : Nat → LogEntry
  | emptyCols : Nat → List String → LogEntry
  | droppedHighNull : String → ℚ → LogEntry
  | filledMedian : String → Nat → ℚ → LogEntry
  | filledMode : String → Nat → String → LogEntry
  | duplicateRows : Nat → LogEntry
  | rowsWithNulls : Nat → LogEntry
  | noIssues : LogEntry
deriving DecidableEq, Repr

/-- A row every cell of which is missing (`df.isna().all(axis=1)`); with no
columns this is vacuously true, as in pandas. -/
def rowAllNA (r : List Cell) : Bool :=
  r.all Cell.isna

/-- Step 1 (lines 97-102): drop completely empty rows. -/
def step1 (df : DataFrame) : DataFrame × List LogEntry :=
  let n := df.rows.countP rowAllNA
  if n > 0 then
    ({ df with rows := df.rows.filter (fun r => !rowAllNA r) }, [.emptyRows n])
  else (df, [])

/-- Column `j` is entirely missing (`df.isna().all(axis=0)`); with no rows
this is vacuously true, as in pandas. -/
def colAllNA (df : DataFrame) (j : Nat) : Bool :=
  df.rows.all (fun r => (getCell r j).isna)

/-- Step 2 (lines 104-110): drop completely empty columns, logging their
count and names. -/
def step2 (df : DataFrame) : DataFrame × List LogEntry :=
  let emptyMask := (List.range df.header.length).map (fun j => colAllNA df j)
  let n := emptyMask.countP id
  if n > 0 then
    let names := (applyMask emptyMask df.header).map (fun m => m.name)
    let keep := emptyMask.map (fun b => !b)
    ({ header := applyMask keep df.header, rows := df.rows.map (applyMask keep) },
      [.emptyCols n names])
  else (df, [])

/-- Number of missing cells in column `j` (`df.isnull().sum()` for one
column). -/
def nullCountAt (df : DataFrame) (j : Nat) : Nat :=
  df.rows.countP (fun r => (getCell r j).isna)

/-- The numeric values present in column `j` (the non-missing values a
numeric column holds). -/
def numValsAt (df : DataFrame) (j : Nat) : List ℚ :=
  df.rows.filterMap (fun r =>
    match getCell r j with
    | .num q => some q
    | _ => none)

/-- The string values present in column `j` (the non-missing values an
object column holds). -/
def strValsAt (df : DataFrame) (j : Nat) : List String :=
  df.rows.filterMap (fun r =>
    match getCell r j with
    | .str s => some s
    | _ => none)

/-- `df.drop(columns=[nm])`: remove the column(s) named `nm` from the header
and the corresponding position(s) from every row. -/
def dropColNamed (df : DataFrame) (nm : String) : DataFrame :=
  let keep := df.header.map (fun m => m.name != nm)
  { header := applyMask keep df.header, rows := df.rows.map (applyMask keep) }

/-- `df[col] = df[col].fillna(v)`: replace the missing cells of column `j`
by `v`. -/
def fillColAt (df : DataFrame) (j : Nat) (v : Cell) : DataFrame :=
  { df with rows := df.rows.map (updAt j (fun c => if c.isna then v else c)) }

/-- One iteration of the step-3 loop (lines 117-138) for a column name with
its pre-computed null count: drop the column when more than 50% of the
(current) rows are missing there, otherwise fill a numeric column with its
median and an object column with its mode (`'Unknown'` when the mode is
empty).  `len(df)` never changes during the loop, and the loop body finds
the column by name in the current frame. -/
def processNullCol (st : DataFrame × List LogEntry) (p : String × Nat) :
    DataFrame × List LogEntry :=
  match st.1.header.findIdx? (fun m => m.name = p.1) with
  | none => st
  | some j =>
    -- The guard `null_pct > 50` with `null_pct = null_count / len(df) * 100`.
    -- It is stated here over the integers (`100 * count > 50 * len`), which
    -- agrees with the source's division for every count and len, including
    -- `len = 0` where the float quotient is `inf` for a positive count.
    if 100 * p.2 > 50 * st.1.rows.length then
      (dropColNamed st.1 p.1,
        st.2 ++ [.droppedHighNull p.1 (((p.2 : ℚ) / (st.1.rows.length : ℚ)) * 100)])
    else if (st.1.header.getD j default).numeric then
      (fillColAt st.1 j (.num (medianOf (numValsAt st.1 j))),
        st.2 ++ [.filledMedian p.1 p.2 (medianOf (numValsAt st.1 j))])
    else
      (fillColAt st.1 j (.str ((modeVal (strValsAt st.1 j)).getD "Unknown")),
        st.2 ++ [.filledMode p.1 p.2 ((modeVal (strValsAt st.1 j)).getD "Unknown")])

/-- Step 3 (lines 112-138): record the columns that currently have missing
cells together with their null counts, then process them in column order. -/
def step3 (df : DataFrame) : DataFrame × List LogEntry :=
  let colsWithNulls := (List.range df.header.length).filterMap (fun j =>
    if nullCountAt df j > 0 then some ((df.header.getD j default).name, nullCountAt df j)
    else none)
  colsWithNulls.foldl processNullCol (df, [])

/-- Step 4 (lines 140-145): drop duplicate rows, keeping first occurrences;
`df.duplicated().sum()` is the number of rows removed.  On an empty frame
(either axis of length zero) `DataFrame.duplicated` returns an empty mask,
so nothing is counted or dropped. -/
def step4 (df : DataFrame) : DataFrame × List LogEntry :=
  if df.header.isEmpty || df.rows.isEmpty then (df, [])
  else
    let deduped := dedupFirst df.rows
    let dups := df.rows.length - deduped.length
    if dups > 0 then ({ df with rows := deduped }, [.duplicateRows dups])
    else (df, [])

/-- Step 5 (lines 147-152): for every object column, strip each cell and
turn empty / sentinel strings into missing markers.  Nothing is logged. -/
def step5 (df : DataFrame) : DataFrame :=
  let textIdxs := (List.range df.header.length).filter
    (fun j => !(df.header.getD j default).numeric)
  { df with rows := textIdxs.foldl (fun rows j => rows.map (updAt j normCell)) df.rows }

/-- A row with at least one missing cell. -/
def rowAnyNA (r : List Cell) : Bool :=
  r.any Cell.isna

/-- Step 6 (lines 154-162): when missing cells remain, drop every row that
contains one, logging the number of rows removed (if positive). -/
def step6 (df : DataFrame) : DataFrame × List LogEntry :=
  let remaining := df.rows.foldl (fun acc r => acc + r.countP Cell.isna) 0
  if remaining > 0 then
    let kept := df.rows.filter (fun r => !rowAnyNA r)
    let removed := df.rows.length - kept.length
    ({ df with rows := kept },
      if removed > 0 then [.rowsWithNulls removed] else [])
  else (df, [])

/-- Step 7 (lines 164-166): normalize every column name unconditionally. -/
def step7 (df : DataFrame) : DataFrame :=
  { df with header := df.header.map (fun m => { m with name := normalizeName m.name }) }

/-- Round half to even at the integers (Python's `round`). -/
def bankersRound (q : ℚ) : ℤ :=
  if q - ((⌊q⌋ : ℤ) : ℚ) < 1 / 2 then ⌊q⌋
  else if q - ((⌊q⌋ : ℤ) : ℚ) > 1 / 2 then ⌊q⌋ + 1
  else if ⌊q⌋ % 2 = 0 then ⌊q⌋ else ⌊q⌋ + 1

/-- Python's `round(x, 1)`, idealised over the rationals. -/
def roundTo1 (q : ℚ) : ℚ :=
  ((bankersRound (q * 10) : ℚ)) / 10

/-- The cleaning report (lines 89-95 and 168-175): original and final shape,
the log of message pairs, rows removed, and the data-quality score. -/
structure CleaningReport where
  filename : String
  original_rows : Nat
  original_columns : Nat
  log : List LogEntry
  final_rows : Nat
  final_columns : Nat
  rows_removed : ℤ
  data_quality_score : ℚ
deriving DecidableEq, Repr

/-- The table produced by the seven cleaning steps in their fixed order. -/
def cleanedTable (df : DataFrame) : DataFrame :=
  step7 (step6 (step5 (step4 (step3 (step2 (step1 df).1).1).1).1)).1

/-- The issue/action message pairs collected by the cleaning steps, before
the synthetic marker is considered (step 5 and step 7 log nothing). -/
def cleanLog (df : DataFrame) : List LogEntry :=
  (step1 df).2 ++ (step2 (step1 df).1).2 ++ (step3 (step2 (step1 df).1).1).2 ++
    (step4 (step3 (step2 (step1 df).1).1).1).2 ++
    (step6 (step5 (step4 (step3 (step2 (step1 df).1).1).1).1)).2

/-- `clean_dataframe` (lines 87-177): the seven cleaning steps in their
fixed order, followed by the report counters, the quality score, and the
synthetic "already clean" marker when no issue was logged. -/
def clean_dataframe (df : DataFrame) (filename : String) :
    DataFrame × CleaningReport :=
  (cleanedTable df,
    { filename := filename
      original_rows := df.rows.length
      original_columns := df.header.length
      log := if (cleanLog df).isEmpty then [.noIssues] else cleanLog df
      final_rows := (cleanedTable df).rows.length
      final_columns := (cleanedTable df).header.length
      rows_removed := (df.rows.length : ℤ) - ((cleanedTable df).rows.length : ℤ)
      data_quality_score :=
        roundTo1 ((((cleanedTable df).rows.length : ℚ) /
          ((max df.rows.length 1 : ℕ) : ℚ)) * 100) })

/-!
## Profile extraction and the analysis loop

`get_file_preview` (lines 180-185) returns a string assembled from the
frame's column list, shape, dtypes, `describe()` output and the first 50
rows rendered as CSV.  It is embedded structurally: the profile is the data
the string is built from.  The `describe()` statistics are derived from the
same frame as the rest, so the dataflow claims about *which* frame is
profiled are unaffected by rendering them symbolically as the frame's
columns rather than as formatted text.
-/

/-- Structural content of the profile string of `get_file_preview`. -/
structure FilePreview where
  columns : List String
  shape : Nat × Nat
  dtypes : List (String × Bool)
  headRows : List (List Cell)
deriving DecidableEq, Repr

/-- `get_file_preview(df, max_rows)` (lines 180-185), structurally. -/
def get_file_preview (df : DataFrame) (maxRows : Nat) : FilePreview :=
  { columns := df.header.map (fun m => m.name)
    shape := (df.rows.length, df.header.length)
    dtypes := df.header.map (fun m => (m.name, m.numeric))
    headRows := df.rows.take maxRows }

/-- One entry of `all_data` in `analyze_with_llm` (lines 203-209). -/
structure AnalyzedFile where
  filename : String
  preview : FilePreview
  columns : List String
  shape : Nat × Nat
deriving DecidableEq, Repr

/-- The file-reading loop of `analyze_with_llm` (lines 193-212): each path is
parsed (`pd.read_csv` / `pd.read_excel`; a file that fails to read, or has
another extension, contributes nothing — modelled as `none`) and the profile
of the *parsed* frame is recorded.  The parser itself is external to the
repository, so each input is a filename paired with its parse outcome. -/
def analyze_file_entries (files : List (String × Option DataFrame)) :
    List AnalyzedFile :=
  files.filterMap (fun p =>
    match p.2 with
    | none => none
    | some df =>
        some { filename := p.1
               preview := get_file_preview df 50
               columns := df.header.map (fun m => m.name)
               shape := (df.rows.length, df.header.length) })

/-!
## LLM response handling and `ReportDocument` assembly

The LLM reply is a string that `analyze_with_llm` (lines 292-325) strips of
code fences and feeds to `json.loads`.  The parser is Python's; its outcome
is taken as the input here: either a decode failure (the
`json.JSONDecodeError` branch) or a JSON value.  `analyze_data`
(lines 452-488) then builds the `AnalysisResponse` pydantic model from the
result — pydantic validation failure is a raised error, not a fallback.
-/

/-- A JSON value as produced by `json.loads`. -/
inductive JValue where
  | null : JValue
  | jbool : Bool → JValue
  | jnum : ℚ → JValue
  | jstr : String → JValue
  | jarr : List JValue → JValue
  | jobj : List (String × JValue) → JValue

/-- The fallback dictionary returned on `json.JSONDecodeError`
(lines 314-322). -/
def fallbackDoc : JValue :=
  .jobj
    [("summary", .jstr "Analysis completed but response parsing failed. Please try again."),
     ("key_metrics", .jarr []),
     ("visualizations", .jarr []),
     ("problems", .jarr [.jstr "Unable to parse analysis results"]),
     ("recommendations", .jarr [.jstr "Please retry the analysis"]),
     ("executive_report", .jstr "Analysis pending - please retry.")]

/-- Lines 309-322 of `analyze_with_llm`: the decoded response when
`json.loads` succeeds, the fallback dictionary when it raises
`json.JSONDecodeError`. -/
def analyzeLlmResult (decoded : Except String JValue) : JValue :=
  match decoded with
  | .error _ => fallbackDoc
  | .ok v => v

/-- The `AnalysisResponse` pydantic model (lines 74-84); extra response keys
are ignored (`extra="ignore"`). -/
structure AnalysisResponse where
  analysis_id : String
  session_id : String
  summary : String
  key_metrics : List JValue
  visualizations : List JValue
  problems : List String
  recommendations : List String
  executive_report : String
  created_at : String

/-- Field lookup in a JSON object (`dict` access; `json.loads` keeps the
last binding of a repeated key). -/
def getField (fields : List (String × JValue)) (k : String) : Option JValue :=
  (fields.reverse.find? (fun f => f.1 = k)).map (fun f => f.2)

/-- Pydantic coercion to `str`. -/
def asString : JValue → Option String
  | .jstr s => some s
  | _ => none

/-- Pydantic coercion to `List[str]`. -/
def asStrList : JValue → Option (List String)
  | .jarr xs => xs.mapM asString
  | _ => none

/-- Whether a JSON value is an object (a `Dict[str, Any]`). -/
def JValue.isObj : JValue → Bool
  | .jobj _ => true
  | _ => false

/-- Pydantic coercion to `List[Dict[str, Any]]`. -/
def asObjList : JValue → Option (List JValue)
  | .jarr xs => if xs.all JValue.isObj then some xs else none
  | _ => none

/-- `AnalysisResponse(**analysis_doc)` in `analyze_data` (lines 472-488):
the analysis result must be a JSON object (else the `**` splice fails) and
its required fields must validate; otherwise the request fails with a raised
error. -/
def mkAnalysisResponse (aid sid created : String) (v : JValue) :
    Except String AnalysisResponse :=
  match v with
  | .jobj fields =>
    match getField fields "summary" |>.bind asString,
          getField fields "key_metrics" |>.bind asObjList,
          getField fields "visualizations" |>.bind asObjList,
          getField fields "problems" |>.bind asStrList,
          getField fields "recommendations" |>.bind asStrList,
          getField fields "executive_report" |>.bind asString with
    | some s, some km, some vz, some pb, some rc, some er =>
        .ok { analysis_id := aid, session_id := sid, summary := s,
              key_metrics := km, visualizations := vz, problems := pb,
              recommendations := rc, executive_report := er,
              created_at := created }
    | _, _, _, _, _, _ => .error "pydantic validation error"
  | _ => .error "analysis result is not a JSON object"

/-- The `/analyze` endpoint's handling of the LLM response: decode outcome
through `analyze_with_llm`'s JSON handling, then `AnalysisResponse`
validation. -/
def analyze_data_result (decoded : Except String JValue) (aid sid created : String) :
    Except String AnalysisResponse :=
  mkAnalysisResponse aid sid created (analyzeLlmResult decoded)

/-!
## File upload

`upload_files` (lines 385-450).  A stored file is modelled as its fresh
identifier (the position of the write within the request, standing for the
generated UUID) paired with the uploaded filename; the parse outcome of each
file is external input, as for the analysis loop.
-/

/-- One file of a multi-file upload request: its filename and whether
`pd.read_csv` / `pd.read_excel` succeeds on its content (the parsed shape is
irrelevant to the claims and omitted). -/
structure UploadItem where
  filename : String
  parseOk : Bool
deriving DecidableEq, Repr

/-- `file.filename.endswith(('.csv', '.xlsx', '.xls'))` (line 400). -/
def allowedExt (fn : String) : Bool :=
  (".csv".data.isSuffixOf fn.data) || (".xlsx".data.isSuffixOf fn.data)
    || (".xls".data.isSuffixOf fn.data)

/-- Abort reason of an upload request (the `HTTPException` details of
lines 401-404 and 435, by content: each names the offending filename). -/
inductive UploadErr where
  | invalidType : String → UploadErr
  | readError : String → UploadErr
deriving DecidableEq, Repr

/-- Outcome of the per-file loop: the final upload directory contents, and
either the collected file infos or the abort reason. -/
structure UploadOutcome where
  disk : List (Nat × String)
  result : Except UploadErr (List (Nat × String))
deriving Repr

/-- The per-file loop of `upload_files` (lines 398-435).  For each file: an
extension check (abort naming the file, before anything is written), then
the write to the upload directory, then the parse; a parse failure unlinks
the just-written file (`file_path.unlink`) and aborts naming the file.
Writes from earlier iterations are not touched by an abort. -/
def uploadLoop : List UploadItem → Nat → List (Nat × String) →
    List (Nat × String) → UploadOutcome
  | [], _, disk, infos => { disk := disk, result := .ok infos }
  | f :: rest, idx, disk, infos =>
    if !allowedExt f.filename then
      { disk := disk, result := .error (.invalidType f.filename) }
    else
      let written := disk ++ [(idx, f.filename)]
      if f.parseOk then
        uploadLoop rest (idx + 1) written (infos ++ [(idx, f.filename)])
      else
        { disk := written.erase (idx, f.filename),
          result := .error (.readError f.filename) }

/-- Session state touched by `upload_files`: the stored file infos and the
`files_uploaded` counter. -/
structure Session where
  files_uploaded : Nat
  files : List (Nat × String)
deriving DecidableEq, Repr

/-- `upload_files` (lines 385-450): run the loop on the request's files;
only a fully successful loop updates the session (the database update at
lines 438-444 runs after the loop). -/
def upload_files (items : List UploadItem) (sess : Session)
    (disk : List (Nat × String)) :
    Session × List (Nat × String) × Except UploadErr (List (Nat × String)) :=
  match uploadLoop items 0 disk [] with
  | { disk := disk', result := .ok infos } =>
      ({ files_uploaded := sess.files_uploaded + infos.length,
         files := sess.files ++ infos }, disk', .ok infos)
  | { disk := disk', result := .error e } => (sess, disk', .error e)

/-!
## Derived predicates and specification-side helpers
-/

/-- Whether a frame's rows contain no missing cell at all. -/
def dfNoNA (df : DataFrame) : Bool :=
  df.rows.all (fun r => r.all (fun c => !c.isna))

/-- A file of an upload request that aborts the loop: disallowed extension
or failing parse. -/
def isBadItem (f : UploadItem) : Bool :=
  !allowedExt f.filename || !f.parseOk

/-- The files the upload loop writes before it reaches its first offending
file: one write per file of the good prefix, tagged with its position from
`idx` on. -/
def prefixWrites : List UploadItem → Nat → List (Nat × String)
  | [], _ => []
  | f :: rest, idx =>
    if isBadItem f then [] else (idx, f.filename) :: prefixWrites rest (idx + 1)

/-- The cells of the column named `nm`, read through the header position the
name currently occupies (`df[nm]`); `none` when no column has that name. -/
def colCells (df : DataFrame) (nm : String) : Option (List Cell) :=
  (df.header.findIdx? (fun m => m.name = nm)).map
    (fun j => df.rows.map (fun r => getCell r j))

/-- The metadata of the column named `nm`. -/
def colMetaOf (df : DataFrame) (nm : String) : Option ColMeta :=
  (df.header.findIdx? (fun m => m.name = nm)).map
    (fun j => df.header.getD j default)

/-- Every cell of every object column is a fixed point of step 5's
per-cell normalization. -/
def textFixed (df : DataFrame) : Prop :=
  ∀ j, j < df.header.length → (df.header.getD j default).numeric = false →
    ∀ r ∈ df.rows, normCell (getCell r j) = getCell r j

/-- A concrete frame used to witness the step-3 text-fill theorem: one
object column with a single missing cell among four rows. -/
def c10df : DataFrame :=
  { header := [{ name := "t", numeric := false }],
    rows := [[Cell.str "a"], [Cell.na], [Cell.str "a"], [Cell.str "b"]] }

/-- A concrete frame used to witness the step-3 median-fill theorem: a
numeric column with one missing cell among four rows, next to a text
column. -/
def c6df : DataFrame :=
  { header := [{ name := "a", numeric := true }, { name := "b", numeric := false }],
    rows := [[Cell.num 1, Cell.str "u"], [Cell.na, Cell.str "v"],
             [Cell.num 3, Cell.str "w"], [Cell.num 10, Cell.str "z"]] }

/-- A concrete frame on which cleaning is *not* idempotent: step 5's
stripping turns `"x "` into `"x"` after step 4's dedup already ran, so a
second cleaning run finds a duplicate row. -/
def c7cexdf : DataFrame :=
  { header := [{ name := "a", numeric := false }],
    rows := [[Cell.str "x"], [Cell.str "x "]] }

/-- A concrete already-clean frame used to witness the conditional
idempotence theorem. -/
def c7wdf : DataFrame :=
  { header := [{ name := "a", numeric := false }],
    rows := [[Cell.str "x"]] }

/-!
## Basic lemmas about the list helpers
-/

theorem applyMask_length_le (m : List Bool) (l : List α) :
    (applyMask m l).length ≤ l.length := by
  induction m generalizing l with
  | nil => simp [applyMask]
  | cons b m ih =>
    cases l with
    | nil => simp [applyMask]
    | cons x xs =>
      cases b with
      | true => simpa [applyMask] using ih xs
      | false => simp [applyMask]; exact Nat.le_succ_of_le (ih xs)

theorem applyMask_length_eq (m : List Bool) (l : List α)
    (h : m.length = l.length) : (applyMask m l).length = m.countP id := by
  induction m generalizing l with
  | nil => simp [applyMask]
  | cons b m ih =>
    cases l with
    | nil => simp at h
    | cons x xs =>
      simp at h
      cases b with
      | true => simp [applyMask, List.countP_cons, ih xs h]
      | false => simp [applyMask, List.countP_cons, ih xs h]

theorem updAt_length (j : Nat) (f : α → α) (l : List α) :
    (updAt j f l).length = l.length := by
  induction l generalizing j with
  | nil => simp [updAt]
  | cons x xs ih =>
    cases j with
    | zero => simp [updAt]
    | succ n => simp [updAt, ih]

theorem getD_updAt_ne (j k : Nat) (f : α → α) (l : List α) (d : α)
    (h : k ≠ j) : (updAt j f l).getD k d = l.getD k d := by
  induction l generalizing j k with
  | nil => simp [updAt]
  | cons x xs ih =>
    cases j with
    | zero =>
      cases k with
      | zero => exact absurd rfl h
      | succ k => simp [updAt]
    | succ n =>
      cases k with
      | zero => simp [updAt]
      | succ k =>
        simp only [updAt, List.getD_cons_succ]
        exact ih n k (fun hk => h (by omega))

theorem getD_updAt_self (j : Nat) (f : α → α) (l : List α) (d : α)
    (hd : f d = d) : (updAt j f l).getD j d = f (l.getD j d) := by
  induction l generalizing j with
  | nil => simp [updAt, hd]
  | cons x xs ih =>
    cases j with
    | zero => simp [updAt]
    | succ n => simpa [updAt] using ih n

theorem updAt_eq_self (j : Nat) (f : α → α) (l : List α)
    (h : ∀ d, f (l.getD j d) = l.getD j d) : updAt j f l = l := by
  induction l generalizing j with
  | nil => simp [updAt]
  | cons x xs ih =>
    cases j with
    | zero => simpa [updAt] using h x
    | succ n =>
      simp only [updAt, List.cons.injEq, true_and]
      exact ih n (fun d => h d)

theorem dedupFirst_go_length (l : List α) [DecidableEq α] (acc : List α) :
    (l.foldl (fun acc x => if x ∈ acc then acc else acc ++ [x]) acc).length ≤
      acc.length + l.length := by
  induction l generalizing acc with
  | nil => simp
  | cons x xs ih =>
    simp only [List.foldl_cons]
    by_cases hx : x ∈ acc
    · simp only [if_pos hx]
      calc _ ≤ acc.length + xs.length := ih acc
      _ ≤ acc.length + (x :: xs).length := by simp only [List.length_cons]; omega
    · simp only [if_neg hx]
      calc _ ≤ (acc ++ [x]).length + xs.length := ih (acc ++ [x])
      _ ≤ acc.length + (x :: xs).length := by
          simp only [List.length_append, List.length_cons, List.length_nil]; omega

theorem dedupFirst_length_le (l : List α) [DecidableEq α] :
    (dedupFirst l).length ≤ l.length := by
  simpa using dedupFirst_go_length l []

theorem dedupFirst_go_nodup (l : List α) [DecidableEq α] (acc : List α)
    (hl : l.Nodup) (hdisj : ∀ x ∈ l, x ∉ acc) :
    l.foldl (fun acc x => if x ∈ acc then acc else acc ++ [x]) acc = acc ++ l := by
  induction l generalizing acc with
  | nil => simp
  | cons x xs ih =>
    simp only [List.foldl_cons]
    rw [if_neg (hdisj x (by simp))]
    rw [ih (acc ++ [x]) (List.Nodup.of_cons hl)]
    · simp
    · intro y hy
      simp only [List.mem_append, List.mem_singleton]
      rintro (hya | rfl)
      · exact hdisj y (by simp [hy]) hya
      · exact (List.nodup_cons.mp hl).1 hy

theorem dedupFirst_of_nodup (l : List α) [DecidableEq α] (hl : l.Nodup) :
    dedupFirst l = l := by
  simpa [dedupFirst] using dedupFirst_go_nodup l [] hl (by simp)

theorem foldl_add_countP (l : List α) (f : α → Nat) (a : Nat) :
    l.foldl (fun acc r => acc + f r) a = a + (l.map f).sum := by
  induction l generalizing a with
  | nil => simp
  | cons x xs ih => simp [ih, Nat.add_assoc]

theorem dedupFirst_go_subset (l : List α) [DecidableEq α] (acc : List α)
    (x : α) (hx : x ∈ l.foldl (fun acc x => if x ∈ acc then acc else acc ++ [x]) acc) :
    x ∈ acc ∨ x ∈ l := by
  induction l generalizing acc with
  | nil => exact Or.inl hx
  | cons y ys ih =>
    simp only [List.foldl_cons] at hx
    by_cases hy : y ∈ acc
    · rw [if_pos hy] at hx
      rcases ih acc hx with h | h
      · exact Or.inl h
      · exact Or.inr (by simp [h])
    · rw [if_neg hy] at hx
      rcases ih (acc ++ [y]) hx with h | h
      · rcases List.mem_append.mp h with h | h
        · exact Or.inl h
        · exact Or.inr (by simp at h; simp [h])
      · exact Or.inr (by simp [h])

theorem dedupFirst_subset (l : List α) [DecidableEq α] (x : α)
    (hx : x ∈ dedupFirst l) : x ∈ l := by
  rcases dedupFirst_go_subset l [] x hx with h | h
  · simp at h
  · exact h

/-!
## Shape and well-formedness facts about the cleaning steps
-/

theorem step1_header (df : DataFrame) : (step1 df).1.header = df.header := by
  simp only [step1]
  split <;> rfl

theorem step1_rows_le (df : DataFrame) :
    (step1 df).1.rows.length ≤ df.rows.length := by
  simp only [step1]
  split
  · exact List.length_filter_le _ _
  · exact le_refl _

theorem step1_rows_sub (df : DataFrame) (r : List Cell)
    (h : r ∈ (step1 df).1.rows) : r ∈ df.rows := by
  simp only [step1] at h
  split at h
  · exact List.mem_of_mem_filter h
  · exact h

theorem step1_wf (df : DataFrame) (h : df.wf) : (step1 df).1.wf := by
  intro r hr
  rw [step1_header]
  exact h r (step1_rows_sub df r hr)

theorem step2_rows_length (df : DataFrame) :
    (step2 df).1.rows.length = df.rows.length := by
  simp only [step2]
  split
  · simp
  · rfl

theorem step2_header_le (df : DataFrame) :
    (step2 df).1.header.length ≤ df.header.length := by
  simp only [step2]
  split
  · calc (applyMask _ df.header).length ≤ df.header.length := applyMask_length_le _ _
    _ = df.header.length := rfl
  · exact le_refl _

theorem step2_wf (df : DataFrame) (h : df.wf) : (step2 df).1.wf := by
  simp only [step2]
  split
  · intro r hr
    simp only [List.mem_map] at hr
    obtain ⟨r₀, hr₀, rfl⟩ := hr
    have hm : (((List.range df.header.length).map (fun j => colAllNA df j)).map
        (fun b => !b)).length = r₀.length := by
      simp [h r₀ hr₀]
    have hh : (((List.range df.header.length).map (fun j => colAllNA df j)).map
        (fun b => !b)).length = df.header.length := by simp
    rw [applyMask_length_eq _ _ hm, applyMask_length_eq _ _ hh]
  · exact h

theorem dropColNamed_rows_length (df : DataFrame) (nm : String) :
    (dropColNamed df nm).rows.length = df.rows.length := by
  simp [dropColNamed]

theorem dropColNamed_header_le (df : DataFrame) (nm : String) :
    (dropColNamed df nm).header.length ≤ df.header.length := by
  have := applyMask_length_le (df.header.map (fun m => m.name != nm)) df.header
  simpa [dropColNamed] using this

theorem dropColNamed_wf (df : DataFrame) (nm : String) (h : df.wf) :
    (dropColNamed df nm).wf := by
  intro r hr
  simp only [dropColNamed, List.mem_map] at hr ⊢
  obtain ⟨r₀, hr₀, rfl⟩ := hr
  have hm : (df.header.map (fun m => m.name != nm)).length = r₀.length := by
    simp [h r₀ hr₀]
  have hh : (df.header.map (fun m => m.name != nm)).length = df.header.length := by simp
  rw [applyMask_length_eq _ _ hm, applyMask_length_eq _ _ hh]

theorem fillColAt_rows_length (df : DataFrame) (j : Nat) (v : Cell) :
    (fillColAt df j v).rows.length = df.rows.length := by
  simp [fillColAt]

theorem fillColAt_header (df : DataFrame) (j : Nat) (v : Cell) :
    (fillColAt df j v).header = df.header := rfl

theorem fillColAt_wf (df : DataFrame) (j : Nat) (v : Cell) (h : df.wf) :
    (fillColAt df j v).wf := by
  intro r hr
  simp only [fillColAt, List.mem_map] at hr
  obtain ⟨r₀, hr₀, rfl⟩ := hr
  simpa [updAt_length] using h r₀ hr₀

theorem processNullCol_rows_length (st : DataFrame × List LogEntry) (p : String × Nat) :
    (processNullCol st p).1.rows.length = st.1.rows.length := by
  simp only [processNullCol]
  cases st.1.header.findIdx? (fun m => m.name = p.1) with
  | none => rfl
  | some j =>
    simp only []
    split
    · exact dropColNamed_rows_length _ _
    · split
      · exact fillColAt_rows_length _ _ _
      · exact fillColAt_rows_length _ _ _

theorem processNullCol_header_le (st : DataFrame × List LogEntry) (p : String × Nat) :
    (processNullCol st p).1.header.length ≤ st.1.header.length := by
  simp only [processNullCol]
  cases st.1.header.findIdx? (fun m => m.name = p.1) with
  | none => exact le_refl _
  | some j =>
    simp only []
    split
    · exact dropColNamed_header_le _ _
    · split
      · exact le_refl _
      · exact le_refl _

theorem processNullCol_wf (st : DataFrame × List LogEntry) (p : String × Nat)
    (h : st.1.wf) : (processNullCol st p).1.wf := by
  simp only [processNullCol]
  cases st.1.header.findIdx? (fun m => m.name = p.1) with
  | none => exact h
  | some j =>
    simp only []
    split
    · exact dropColNamed_wf _ _ h
    · split
      · exact fillColAt_wf _ _ _ h
      · exact fillColAt_wf _ _ _ h

theorem foldl_processNullCol_rows_length (ps : List (String × Nat))
    (st : DataFrame × List LogEntry) :
    (ps.foldl processNullCol st).1.rows.length = st.1.rows.length := by
  induction ps generalizing st with
  | nil => rfl
  | cons p ps ih => rw [List.foldl_cons, ih, processNullCol_rows_length]

theorem foldl_processNullCol_header_le (ps : List (String × Nat))
    (st : DataFrame × List LogEntry) :
    (ps.foldl processNullCol st).1.header.length ≤ st.1.header.length := by
  induction ps generalizing st with
  | nil => exact le_refl _
  | cons p ps ih =>
    rw [List.foldl_cons]
    exact le_trans (ih _) (processNullCol_header_le _ _)

theorem foldl_processNullCol_wf (ps : List (String × Nat))
    (st : DataFrame × List LogEntry) (h : st.1.wf) :
    (ps.foldl processNullCol st).1.wf := by
  induction ps generalizing st with
  | nil => exact h
  | cons p ps ih =>
    rw [List.foldl_cons]
    exact ih _ (processNullCol_wf _ _ h)

theorem step3_rows_length (df : DataFrame) :
    (step3 df).1.rows.length = df.rows.length := by
  simpa [step3] using foldl_processNullCol_rows_length _ (df, [])

theorem step3_header_le (df : DataFrame) :
    (step3 df).1.header.length ≤ df.header.length := by
  simpa [step3] using foldl_processNullCol_header_le _ (df, [])

theorem step3_wf (df : DataFrame) (h : df.wf) : (step3 df).1.wf := by
  simpa [step3] using foldl_processNullCol_wf _ (df, []) h

theorem step4_header (df : DataFrame) : (step4 df).1.header = df.header := by
  simp only [step4]
  split
  · rfl
  · split <;> rfl

theorem step4_rows_le (df : DataFrame) :
    (step4 df).1.rows.length ≤ df.rows.length := by
  simp only [step4]
  split
  · exact le_refl _
  · split
    · exact dedupFirst_length_le _
    · exact le_refl _

theorem step4_rows_sub (df : DataFrame) (r : List Cell)
    (h : r ∈ (step4 df).1.rows) : r ∈ df.rows := by
  simp only [step4] at h
  split at h
  · exact h
  · split at h
    · exact dedupFirst_subset _ _ h
    · exact h

theorem step4_wf (df : DataFrame) (h : df.wf) : (step4 df).1.wf := by
  intro r hr
  rw [step4_header]
  exact h r (step4_rows_sub df r hr)

theorem step5_header (df : DataFrame) : (step5 df).header = df.header := rfl

theorem step5_fold_comm (idxs : List Nat) (rows : List (List Cell)) :
    idxs.foldl (fun rs j => rs.map (updAt j normCell)) rows =
      rows.map (fun r => idxs.foldl (fun r j => updAt j normCell r) r) := by
  induction idxs generalizing rows with
  | nil => simp
  | cons j idxs ih =>
    simp only [List.foldl_cons]
    rw [ih, List.map_map]
    rfl

theorem updAt_chain_length (idxs : List Nat) (r : List Cell) :
    (idxs.foldl (fun r j => updAt j normCell r) r).length = r.length := by
  induction idxs generalizing r with
  | nil => rfl
  | cons j idxs ih => rw [List.foldl_cons, ih, updAt_length]

theorem step5_rows_length (df : DataFrame) :
    (step5 df).rows.length = df.rows.length := by
  simp only [step5, step5_fold_comm]
  simp

theorem step5_wf (df : DataFrame) (h : df.wf) : (step5 df).wf := by
  intro r hr
  simp only [step5, step5_fold_comm, List.mem_map] at hr
  obtain ⟨r₀, hr₀, rfl⟩ := hr
  simpa [updAt_chain_length] using h r₀ hr₀

theorem step6_header (df : DataFrame) : (step6 df).1.header = df.header := by
  simp only [step6]
  split <;> rfl

theorem step6_rows_le (df : DataFrame) :
    (step6 df).1.rows.length ≤ df.rows.length := by
  simp only [step6]
  split
  · exact List.length_filter_le _ _
  · exact le_refl _

theorem step6_rows_sub (df : DataFrame) (r : List Cell)
    (h : r ∈ (step6 df).1.rows) : r ∈ df.rows := by
  simp only [step6] at h
  split at h
  · exact List.mem_of_mem_filter h
  · exact h

theorem step6_wf (df : DataFrame) (h : df.wf) : (step6 df).1.wf := by
  intro r hr
  rw [step6_header]
  exact h r (step6_rows_sub df r hr)

theorem step7_rows (df : DataFrame) : (step7 df).rows = df.rows := rfl

theorem step7_header_length (df : DataFrame) :
    (step7 df).header.length = df.header.length := by
  simp [step7]

theorem step7_wf (df : DataFrame) (h : df.wf) : (step7 df).wf := by
  intro r hr
  rw [step7_header_length]
  exact h r hr

theorem step7_noNA (df : DataFrame) : dfNoNA (step7 df) = dfNoNA df := rfl

theorem step6_noNA (df : DataFrame) : dfNoNA (step6 df).1 = true := by
  simp only [dfNoNA, List.all_eq_true]
  intro r hr c hc
  simp only [step6] at hr
  split at hr
  · rename_i hpos
    have := List.of_mem_filter hr
    simp only [rowAnyNA, Bool.not_eq_true'] at this
    have := List.any_eq_false.mp this c hc
    simpa using this
  · rename_i hz
    push_neg at hz
    have hz0 : df.rows.foldl (fun acc r => acc + r.countP Cell.isna) 0 = 0 :=
      Nat.le_zero.mp hz
    rw [foldl_add_countP] at hz0
    simp only [Nat.zero_add] at hz0
    have hall := List.sum_eq_zero_iff.mp hz0
    have hcz : r.countP Cell.isna = 0 := hall _ (List.mem_map_of_mem _ hr)
    have := List.countP_eq_zero.mp hcz c hc
    simpa using this

theorem cleanedTable_rows_le (df : DataFrame) :
    (cleanedTable df).rows.length ≤ df.rows.length := by
  rw [cleanedTable, step7_rows]
  calc (step6 (step5 (step4 (step3 (step2 (step1 df).1).1).1).1)).1.rows.length
      ≤ (step5 (step4 (step3 (step2 (step1 df).1).1).1).1).rows.length := step6_rows_le _
    _ = (step4 (step3 (step2 (step1 df).1).1).1).1.rows.length := step5_rows_length _
    _ ≤ (step3 (step2 (step1 df).1).1).1.rows.length := step4_rows_le _
    _ = (step2 (step1 df).1).1.rows.length := step3_rows_length _
    _ = (step1 df).1.rows.length := step2_rows_length _
    _ ≤ df.rows.length := step1_rows_le _

theorem cleanedTable_header_le (df : DataFrame) :
    (cleanedTable df).header.length ≤ df.header.length := by
  rw [cleanedTable, step7_header_length, step6_header, step5_header, step4_header]
  calc (step3 (step2 (step1 df).1).1).1.header.length
      ≤ (step2 (step1 df).1).1.header.length := step3_header_le _
    _ ≤ (step1 df).1.header.length := step2_header_le _
    _ = df.header.length := by rw [step1_header]

theorem cleanedTable_wf (df : DataFrame) (h : df.wf) : (cleanedTable df).wf := by
  rw [cleanedTable]
  exact step7_wf _ (step6_wf _ (step5_wf _ (step4_wf _ (step3_wf _ (step2_wf _ (step1_wf _ h))))))

theorem clean_fst_eq (df : DataFrame) (fn : String) :
    (clean_dataframe df fn).1 = cleanedTable df := by
  simp only [clean_dataframe]

theorem clean_final_rows_eq (df : DataFrame) (fn : String) :
    (clean_dataframe df fn).2.final_rows = (cleanedTable df).rows.length := by
  simp only [clean_dataframe]

theorem clean_original_rows_eq (df : DataFrame) (fn : String) :
    (clean_dataframe df fn).2.original_rows = df.rows.length := by
  simp only [clean_dataframe]

theorem clean_final_columns_eq (df : DataFrame) (fn : String) :
    (clean_dataframe df fn).2.final_columns = (cleanedTable df).header.length := by
  simp only [clean_dataframe]

theorem clean_original_columns_eq (df : DataFrame) (fn : String) :
    (clean_dataframe df fn).2.original_columns = df.header.length := by
  simp only [clean_dataframe]

theorem clean_rows_removed_eq (df : DataFrame) (fn : String) :
    (clean_dataframe df fn).2.rows_removed =
      (df.rows.length : ℤ) - ((cleanedTable df).rows.length : ℤ) := by
  simp only [clean_dataframe]

theorem clean_score_eq (df : DataFrame) (fn : String) :
    (clean_dataframe df fn).2.data_quality_score =
      roundTo1 ((((cleanedTable df).rows.length : ℚ) /
        ((max df.rows.length 1 : ℕ) : ℚ)) * 100) := by
  simp only [clean_dataframe]

theorem clean_log_eq (df : DataFrame) (fn : String) :
    (clean_dataframe df fn).2.log =
      (if (cleanLog df).isEmpty then [.noIssues] else cleanLog df) := by
  simp only [clean_dataframe]

theorem clean_filename_eq (df : DataFrame) (fn : String) :
    (clean_dataframe df fn).2.filename = fn := by
  simp only [clean_dataframe]

theorem clean_wf (df : DataFrame) (fn : String) (h : df.wf) :
    (clean_dataframe df fn).1.wf := by
  rw [clean_fst_eq]
  exact cleanedTable_wf df h

theorem clean_final_rows_le (df : DataFrame) (fn : String) :
    (clean_dataframe df fn).2.final_rows ≤ (clean_dataframe df fn).2.original_rows := by
  rw [clean_final_rows_eq, clean_original_rows_eq]
  exact cleanedTable_rows_le df

theorem clean_final_columns_le (df : DataFrame) (fn : String) :
    (clean_dataframe df fn).2.final_columns ≤ (clean_dataframe df fn).2.original_columns := by
  rw [clean_final_columns_eq, clean_original_columns_eq]
  exact cleanedTable_header_le df

theorem bankersRound_nonneg (q : ℚ) (h : 0 ≤ q) : 0 ≤ bankersRound q := by
  have hn : (0 : ℤ) ≤ ⌊q⌋ := Int.floor_nonneg.mpr h
  unfold bankersRound
  split_ifs <;> omega

theorem bankersRound_le (q : ℚ) (b : ℤ) (h : q ≤ (b : ℚ)) : bankersRound q ≤ b := by
  have hnb : ⌊q⌋ ≤ b := by
    have := Int.floor_le_floor h
    simpa using this
  unfold bankersRound
  by_cases hq : ⌊q⌋ = b
  · have hr : q - (⌊q⌋ : ℚ) < 1 / 2 := by
      rw [hq]
      have : q - (b : ℚ) ≤ 0 := by linarith
      linarith
    rw [if_pos hr]
    omega
  · have : ⌊q⌋ + 1 ≤ b := by omega
    split_ifs <;> omega

theorem roundTo1_nonneg (q : ℚ) (h : 0 ≤ q) : 0 ≤ roundTo1 q := by
  unfold roundTo1
  have := bankersRound_nonneg (q * 10) (by linarith)
  positivity

theorem roundTo1_le_100 (q : ℚ) (h : q ≤ 100) : roundTo1 q ≤ 100 := by
  unfold roundTo1
  have hb : bankersRound (q * 10) ≤ 1000 := by
    apply bankersRound_le
    push_cast
    linarith
  rw [div_le_iff₀ (by norm_num : (0 : ℚ) < 10)]
  calc ((bankersRound (q * 10) : ℚ)) ≤ (1000 : ℚ) := by exact_mod_cast hb
    _ = 100 * 10 := by norm_num

/-!
## Claims C9, C5, C8 — invariants of the cleaned table and report
-/

theorem cleanedTable_noNA (df : DataFrame) : dfNoNA (cleanedTable df) = true := by
  rw [cleanedTable, step7_noNA]
  exact step6_noNA _

/-- C9: for every input table, the table returned by cleaning contains no
missing cells — step 6 drops every row that still contains a missing value
(including markers reintroduced by step 5's normalization), so every cell of
the returned table is non-missing. -/
theorem C9_clean_output_has_no_missing_cells (df : DataFrame) (fn : String) :
    dfNoNA (clean_dataframe df fn).1 = true := by
  rw [clean_fst_eq]
  exact cleanedTable_noNA df

/-- C5: for every input table, the report's `data_quality_score` equals
`round(final_rows / max(original_rows, 1) * 100, 1)` and lies in `[0, 100]`. -/
theorem C5_data_quality_score_formula_and_range (df : DataFrame) (fn : String) :
    (clean_dataframe df fn).2.data_quality_score =
      roundTo1 ((((clean_dataframe df fn).2.final_rows : ℚ)) /
        (((max (clean_dataframe df fn).2.original_rows 1 : ℕ)) : ℚ) * 100) ∧
    0 ≤ (clean_dataframe df fn).2.data_quality_score ∧
    (clean_dataframe df fn).2.data_quality_score ≤ 100 := by
  rw [clean_score_eq, clean_final_rows_eq, clean_original_rows_eq]
  refine ⟨rfl, ?_, ?_⟩
  · apply roundTo1_nonneg
    positivity
  · apply roundTo1_le_100
    have hle : (cleanedTable df).rows.length ≤ max df.rows.length 1 :=
      le_trans (cleanedTable_rows_le df) (le_max_left _ _)
    have hpos : (1 : ℚ) ≤ ((max df.rows.length 1 : ℕ) : ℚ) := by
      exact_mod_cast le_max_right _ 1
    have hdiv : (((cleanedTable df).rows.length : ℚ)) /
        (((max df.rows.length 1 : ℕ)) : ℚ) ≤ 1 := by
      rw [div_le_one (by linarith)]
      exact_mod_cast hle
    linarith

/-- C8: cleaning is total and never adds rows or columns —
`final_rows ≤ original_rows` and `final_columns ≤ original_columns` for
every table, and the zero-row zero-column table passes through with all-zero
counters, a score of 0, and the synthetic "already clean" log. -/
theorem C8_clean_monotone_counts_and_empty_table (df : DataFrame) (fn : String) :
    (clean_dataframe df fn).2.final_rows ≤ (clean_dataframe df fn).2.original_rows ∧
    (clean_dataframe df fn).2.final_columns ≤ (clean_dataframe df fn).2.original_columns ∧
    (clean_dataframe { header := [], rows := [] } "empty.csv").2 =
      { filename := "empty.csv", original_rows := 0, original_columns := 0,
        log := [LogEntry.noIssues], final_rows := 0, final_columns := 0,
        rows_removed := 0, data_quality_score := 0 } := by
  refine ⟨clean_final_rows_le df fn, clean_final_columns_le df fn, ?_⟩
  have h1 : cleanedTable { header := [], rows := [] } = { header := [], rows := [] } := by
    decide
  have h2 : cleanLog { header := [], rows := [] } = [] := by decide
  simp only [clean_dataframe, h1, h2, List.isEmpty_nil, if_pos]
  norm_num [roundTo1, bankersRound]

theorem step7_header_eq (df : DataFrame) :
    (step7 df).header =
      df.header.map (fun m => { m with name := normalizeName m.name }) := rfl

theorem cleanedTable_header (df : DataFrame) :
    (cleanedTable df).header =
      (step3 (step2 (step1 df).1).1).1.header.map
        (fun m => { m with name := normalizeName m.name }) := by
  rw [cleanedTable, step7_header_eq, step6_header, step5_header, step4_header]

/-!
## Claim C4 — column-name normalization
-/

theorem normalizeName_chars (s : String) (c : Char)
    (hc : c ∈ (normalizeName s).data) :
    isWordChar c = true ∨ (isSpaceChar c = true ∧ c ≠ ' ') := by
  simp only [normalizeName, List.mem_map, List.mem_filter] at hc
  obtain ⟨d, ⟨hd, hpd⟩, rfl⟩ := hc
  by_cases hsp : d = ' '
  · subst hsp
    left
    decide
  · rw [if_neg hsp]
    rcases Bool.or_eq_true _ _ |>.mp hpd with hw | hs
    · exact Or.inl hw
    · exact Or.inr ⟨hs, hsp⟩

/-- C4 (amended): after cleaning, every character of every column name is an
alphanumeric, an underscore, or a whitespace character other than the space
character itself — the normalization strips non-word non-space characters
and replaces each space by an underscore, but leaves other internal
whitespace (tabs, newlines) in place and turns a run of `k` spaces into `k`
underscores rather than one. -/
theorem C4_clean_column_name_characters (df : DataFrame) (fn : String)
    (m : ColMeta) (hm : m ∈ (clean_dataframe df fn).1.header)
    (c : Char) (hc : c ∈ m.name.data) :
    isWordChar c = true ∨ (isSpaceChar c = true ∧ c ≠ ' ') := by
  rw [clean_fst_eq, cleanedTable_header, List.mem_map] at hm
  obtain ⟨m₀, hm₀, rfl⟩ := hm
  exact normalizeName_chars m₀.name c hc

/-- C4 (witness): on a concrete frame whose one column is named `"a b"`, the
cleaned header's sole column is named `"a_b"` and the theorem applies to its
first character. -/
theorem C4_clean_column_name_characters_witness :
    ({ name := "a_b", numeric := false } : ColMeta) ∈
      (clean_dataframe
        { header := [{ name := "a b", numeric := false }],
          rows := [[Cell.str "x"]] } "w.csv").1.header ∧
    'a' ∈ ("a_b".data) ∧
    (isWordChar 'a' = true ∨ (isSpaceChar 'a' = true ∧ 'a' ≠ ' ')) :=
  ⟨by decide, by decide,
    C4_clean_column_name_characters
      { header := [{ name := "a b", numeric := false }], rows := [[Cell.str "x"]] }
      "w.csv" { name := "a_b", numeric := false } (by decide) 'a' (by decide)⟩

/-- C4 (counterexample): the claim as stated is false — a column named
`"a\tb"` survives cleaning with its tab intact, so the cleaned name is not
made of alphanumerics and underscores only; and a run of two spaces becomes
two underscores, not one. -/
theorem C4_clean_column_name_characters_counterexample :
    (clean_dataframe
        { header := [{ name := "a\tb", numeric := false }],
          rows := [[Cell.str "x"]] } "c.csv").1.header.map (fun m => m.name) =
      ["a\tb"] ∧
    ("a\tb".data.all (fun c => c.isAlphanum || c = '_')) = false ∧
    normalizeName "a  b" = "a__b" ∧ "a__b" ≠ "a_b" := by
  refine ⟨?_, by decide, by decide, by decide⟩
  rw [clean_fst_eq]
  decide

/-!
## Claim C2 — LLM response handling
-/

/-- C2 (amended): a response that is not well-formed JSON — and only such a
response — yields the fallback `ReportDocument`: empty metrics and
visualizations, the single problem "Unable to parse analysis results", the
single recommendation "Please retry the analysis", and placeholder
summary / report texts.  (Well-formed JSON that does not match the schema
raises instead; see the counterexample.) -/
theorem C2_nonjson_response_yields_fallback (e aid sid created : String) :
    analyze_data_result (Except.error e) aid sid created =
      Except.ok
        { analysis_id := aid
          session_id := sid
          summary := "Analysis completed but response parsing failed. Please try again."
          key_metrics := []
          visualizations := []
          problems := ["Unable to parse analysis results"]
          recommendations := ["Please retry the analysis"]
          executive_report := "Analysis pending - please retry."
          created_at := created } := rfl

/-- C2 (counterexample): a well-formed JSON response that does not match the
`ReportDocument` schema (here: an empty JSON object) does **not** produce
the fallback document — `AnalysisResponse` validation raises, a hard
failure. -/
theorem C2_nonjson_response_yields_fallback_counterexample :
    analyze_data_result (Except.ok (JValue.jobj [])) "a1" "s1" "t1" =
      Except.error "pydantic validation error" := rfl

/-!
## Claim C3 — multi-file upload abort semantics
-/

theorem uploadLoop_abort (items : List UploadItem) (idx : Nat)
    (disk infos : List (Nat × String)) (bad : UploadItem)
    (h : items.find? isBadItem = some bad) :
    uploadLoop items idx disk infos =
      { disk :=
          if allowedExt bad.filename then
            ((disk ++ prefixWrites items idx ++
              [(idx + (prefixWrites items idx).length, bad.filename)]).erase
                (idx + (prefixWrites items idx).length, bad.filename))
          else disk ++ prefixWrites items idx,
        result := .error (if allowedExt bad.filename then .readError bad.filename
          else .invalidType bad.filename) } := by
  induction items generalizing idx disk infos with
  | nil => simp at h
  | cons f rest ih =>
    by_cases hbad : isBadItem f = true
    · have hf : bad = f := by
        rw [List.find?_cons_of_pos _ hbad] at h
        exact (Option.some.injEq _ _ ▸ h.symm)
      subst hf
      by_cases hext : allowedExt bad.filename = true
      · have hparse : bad.parseOk = false := by
        
          simp [isBadItem, hext] at hbad
          exact hbad
        simp [uploadLoop, hext, hparse, prefixWrites, isBadItem]
      · simp [uploadLoop, hext, prefixWrites, isBadItem]
    · have hrest : rest.find? isBadItem = some bad := by
        rw [List.find?_cons_of_neg _ (by simpa using hbad)] at h
        exact h
      have hext : allowedExt f.filename = true := by
        by_contra hx
        exact hbad (by simp [isBadItem, Bool.not_eq_true _ ▸ hx])
      have hparse : f.parseOk = true := by
        by_contra hx
        exact hbad (by simp [isBadItem, hx])
      have hpw : prefixWrites (f :: rest) idx = (idx, f.filename) :: prefixWrites rest (idx + 1) := by
        simp [prefixWrites, isBadItem, hext, hparse]
      rw [hpw]
      simp only [uploadLoop, hext, hparse, Bool.not_true, Bool.false_eq_true, if_false, if_true]
      rw [ih (idx + 1) (disk ++ [(idx, f.filename)]) (infos ++ [(idx, f.filename)]) hrest]
      have hlen : idx + ((idx, f.filename) :: prefixWrites rest (idx + 1)).length =
          idx + 1 + (prefixWrites rest (idx + 1)).length := by
        simp only [List.length_cons]
        omega
      have hassoc : disk ++ (idx, f.filename) :: prefixWrites rest (idx + 1) =
          (disk ++ [(idx, f.filename)]) ++ prefixWrites rest (idx + 1) := by
        simp
      rw [hlen, hassoc]

/-- C3 (amended): when a multi-file upload contains an offending file (bad
extension or failing parse), the whole upload aborts with a client error
naming the first offending filename and session state is untouched; the
offending file's own write is removed (bad extensions are rejected before
the file is written or parsed), but the files written for the *preceding*
files of the same request remain on disk. -/
theorem C3_upload_abort_names_file_and_keeps_session (items : List UploadItem)
    (sess : Session) (disk : List (Nat × String)) (bad : UploadItem)
    (h : items.find? isBadItem = some bad) :
    (upload_files items sess disk).1 = sess ∧
    (upload_files items sess disk).2.2 =
      Except.error (if allowedExt bad.filename then UploadErr.readError bad.filename
        else UploadErr.invalidType bad.filename) ∧
    (upload_files items sess disk).2.1 =
      (if allowedExt bad.filename then
        ((disk ++ prefixWrites items 0 ++
          [((prefixWrites items 0).length, bad.filename)]).erase
            ((prefixWrites items 0).length, bad.filename))
      else disk ++ prefixWrites items 0) := by
  have hl := uploadLoop_abort items 0 disk [] bad h
  rw [Nat.zero_add] at hl
  simp only [upload_files, hl]
  by_cases hext : allowedExt bad.filename = true <;> simp [hext]

/-- C3 (witness): a single-file request with a `.txt` file is rejected
naming the file, with session and disk untouched. -/
theorem C3_upload_abort_names_file_and_keeps_session_witness :
    ([{ filename := "bad.txt", parseOk := true }] : List UploadItem).find? isBadItem =
      some { filename := "bad.txt", parseOk := true } ∧
    ((upload_files [{ filename := "bad.txt", parseOk := true }]
        { files_uploaded := 0, files := [] } []).1 =
      { files_uploaded := 0, files := [] } ∧
    (upload_files [{ filename := "bad.txt", parseOk := true }]
        { files_uploaded := 0, files := [] } []).2.2 =
      Except.error (if allowedExt "bad.txt" then UploadErr.readError "bad.txt"
        else UploadErr.invalidType "bad.txt") ∧
    (upload_files [{ filename := "bad.txt", parseOk := true }]
        { files_uploaded := 0, files := [] } []).2.1 =
      (if allowedExt "bad.txt" then
        (([] ++ prefixWrites [{ filename := "bad.txt", parseOk := true }] 0 ++
          [((prefixWrites [{ filename := "bad.txt", parseOk := true }] 0).length,
            "bad.txt")]).erase
            ((prefixWrites [{ filename := "bad.txt", parseOk := true }] 0).length,
              "bad.txt"))
      else [] ++ prefixWrites [{ filename := "bad.txt", parseOk := true }] 0)) :=
  ⟨by decide,
    C3_upload_abort_names_file_and_keeps_session
      [{ filename := "bad.txt", parseOk := true }]
      { files_uploaded := 0, files := [] } []
      { filename := "bad.txt", parseOk := true } (by decide)⟩

/-- C3 (counterexample): the claim as stated is false — when the second file
of a request is offending, the first file's write stays on disk, so
partially-written files do remain. -/
theorem C3_upload_abort_names_file_and_keeps_session_counterexample :
    upload_files
        [{ filename := "good.csv", parseOk := true },
         { filename := "bad.txt", parseOk := true }]
        { files_uploaded := 0, files := [] } [] =
      ({ files_uploaded := 0, files := [] }, [(0, "good.csv")],
        Except.error (UploadErr.invalidType "bad.txt")) ∧
    ([(0, "good.csv")] : List (Nat × String)) ≠ [] := by
  exact ⟨rfl, by decide⟩

/-!
## Claim C1 — which table is profiled for the LLM
-/

/-- C1: the analysis path profiles the **raw parsed** table.  For every
parsed file, the entry handed to the LLM context carries
`get_file_preview` of the parsed frame itself — `clean_dataframe` is never
applied on this path — and on a concrete frame with a duplicate row the
profile of the raw frame differs from the profile of the cleaned frame, so
the claimed dataflow (profile of `clean(parse(bytes))`) does not hold. -/
theorem C1_analysis_profiles_raw_not_cleaned_table :
    (∀ (name : String) (df : DataFrame),
      analyze_file_entries [(name, some df)] =
        [{ filename := name, preview := get_file_preview df 50,
           columns := df.header.map (fun m => m.name),
           shape := (df.rows.length, df.header.length) }]) ∧
    analyze_file_entries
        [("f.csv", some { header := [{ name := "a", numeric := false }],
                          rows := [[Cell.str "x"], [Cell.str "x"]] })] =
      [{ filename := "f.csv",
         preview := get_file_preview
           { header := [{ name := "a", numeric := false }],
             rows := [[Cell.str "x"], [Cell.str "x"]] } 50,
         columns := ["a"], shape := (2, 1) }] ∧
    get_file_preview
        { header := [{ name := "a", numeric := false }],
          rows := [[Cell.str "x"], [Cell.str "x"]] } 50 ≠
      get_file_preview
        (clean_dataframe
          { header := [{ name := "a", numeric := false }],
            rows := [[Cell.str "x"], [Cell.str "x"]] } "f.csv").1 50 := by
  refine ⟨fun name df => rfl, rfl, ?_⟩
  rw [clean_fst_eq]
  decide

/-!
## Claim C10 — the `'Unknown'` fallback of the text-fill branch
-/

theorem findIdx?_some_spec {p : α → Bool} {l : List α} {j : Nat} (d : α)
    (h : l.findIdx? p = some j) :
    j < l.length ∧ p (l.getD j d) = true ∧ ∀ i, i < j → p (l.getD i d) = false := by
  rw [List.findIdx?_eq_some_iff_getElem] at h
  obtain ⟨hlen, hp, hearlier⟩ := h
  refine ⟨hlen, ?_, ?_⟩
  · rw [List.getD_eq_getElem?_getD, List.getElem?_eq_getElem hlen]
    exact hp
  · intro i hi
    have hil : i < l.length := Nat.lt_trans hi hlen
    rw [List.getD_eq_getElem?_getD, List.getElem?_eq_getElem hil]
    have := hearlier i hi
    simpa using this

theorem dedupFirst_go_length_ge (l : List α) [DecidableEq α] (acc : List α) :
    acc.length ≤ (l.foldl (fun acc x => if x ∈ acc then acc else acc ++ [x]) acc).length := by
  induction l generalizing acc with
  | nil => exact le_refl _
  | cons x xs ih =>
    simp only [List.foldl_cons]
    by_cases hx : x ∈ acc
    · rw [if_pos hx]; exact ih acc
    · rw [if_neg hx]
      calc acc.length ≤ (acc ++ [x]).length := by simp
      _ ≤ _ := ih (acc ++ [x])

theorem dedupFirst_ne_nil {l : List α} [DecidableEq α] (h : l ≠ []) :
    dedupFirst l ≠ [] := by
  cases l with
  | nil => exact absurd rfl h
  | cons x xs =>
    intro h0
    have h1 : (1 : Nat) ≤ (dedupFirst (x :: xs)).length := by
      unfold dedupFirst
      simp only [List.foldl_cons, List.not_mem_nil, if_neg (List.not_mem_nil x),
        List.nil_append]
      simpa using dedupFirst_go_length_ge xs [x]
    rw [h0] at h1
    simp at h1

theorem modeVal_isSome {l : List String} (h : l ≠ []) :
    ∃ v, modeVal l = some v := by
  unfold modeVal
  cases hd : dedupFirst l with
  | nil => exact absurd hd (dedupFirst_ne_nil h)
  | cons x xs => exact ⟨_, rfl⟩

/-- C10: the literal `'Unknown'` fallback in step 3's text-column branch is
unreachable — whenever the branch is taken (column found, non-numeric dtype,
a positive null count not exceeding the 50% guard, cells admissible for
their dtype), the column has a non-missing string value, so the mode exists
and is the value used to fill. -/
theorem C10_text_fill_unknown_fallback_unreachable (df : DataFrame)
    (log : List LogEntry) (nm : String) (j cnt : Nat)
    (hfind : df.header.findIdx? (fun m => m.name = nm) = some j)
    (hnum : (df.header.getD j default).numeric = false)
    (hcnt : nullCountAt df j = cnt)
    (hpos : 0 < cnt)
    (hpct : ¬(100 * cnt > 50 * df.rows.length))
    (htyped : df.typed) :
    ∃ v, modeVal (strValsAt df j) = some v ∧
      processNullCol (df, log) (nm, cnt) =
        (fillColAt df j (Cell.str v), log ++ [LogEntry.filledMode nm cnt v]) := by
  obtain ⟨hj, -, -⟩ := findIdx?_some_spec default hfind
  have hle : cnt ≤ df.rows.length := hcnt ▸ List.countP_le_length _
  have hex : ∃ r ∈ df.rows, (getCell r j).isna = false := by
    by_contra hall
    push_neg at hall
    have hfull : nullCountAt df j = df.rows.length := by
      apply List.countP_eq_length.mpr
      intro r hr
      have := hall r hr
      simpa using this
    omega
  obtain ⟨r, hr, hna⟩ := hex
  have hok := htyped r hr j hj
  rw [hnum] at hok
  have hstr : ∃ s, getCell r j = Cell.str s := by
    cases hcell : getCell r j with
    | na => rw [hcell] at hna; simp [Cell.isna] at hna
    | num q => rw [hcell] at hok; simp [cellOk] at hok
    | str s => exact ⟨s, rfl⟩
  obtain ⟨s, hs⟩ := hstr
  have hmem : s ∈ strValsAt df j := by
    simp only [strValsAt, List.mem_filterMap]
    exact ⟨r, hr, by rw [hs]⟩
  have hne : strValsAt df j ≠ [] := by
    intro h0
    rw [h0] at hmem
    simp at hmem
  obtain ⟨v, hv⟩ := modeVal_isSome hne
  refine ⟨v, hv, ?_⟩
  simp only [processNullCol, hfind]
  rw [if_neg hpct, if_neg (by rw [hnum]; exact Bool.false_ne_true), hv]
  rfl


/-- C10 (witness): a concrete object column with one missing cell among four
rows takes the mode branch with an existing mode. -/
theorem C10_text_fill_unknown_fallback_unreachable_witness :
    (c10df.header.findIdx? (fun m => m.name = "t") = some 0) ∧
    (c10df.header.getD 0 default).numeric = false ∧
    nullCountAt c10df 0 = 1 ∧
    (0 : Nat) < 1 ∧
    ¬(100 * 1 > 50 * c10df.rows.length) ∧
    c10df.typed ∧
    (∃ v, modeVal (strValsAt c10df 0) = some v ∧
      processNullCol (c10df, []) ("t", 1) =
        (fillColAt c10df 0 (Cell.str v), [] ++ [LogEntry.filledMode "t" 1 v])) :=
  ⟨by decide, by decide, by decide, by decide, by decide, by decide,
    C10_text_fill_unknown_fallback_unreachable c10df [] "t" 0 1
      (by decide) (by decide) (by decide) (by decide) (by decide) (by decide)⟩

/-!
## Claim C6 — machinery: column views are stable across step 3's loop
-/

theorem applyMask_getD (m : List Bool) (l : List α) (j : Nat) (d : α)
    (hm : m.getD j false = true) :
    (applyMask m l).getD ((m.take j).countP id) d = l.getD j d := by
  induction m generalizing l j with
  | nil => simp at hm
  | cons b m ih =>
    cases j with
    | zero =>
      simp only [List.getD_cons_zero] at hm
      subst hm
      cases l with
      | nil => simp [applyMask]
      | cons x xs => simp [applyMask]
    | succ k =>
      simp only [List.getD_cons_succ] at hm
      cases l with
      | nil =>
        simp only [List.getD_nil]
        cases b <;> simp [applyMask, List.getD_nil]
      | cons x xs =>
        cases b with
        | true =>
          simp only [applyMask, if_pos rfl, List.take_succ_cons, List.countP_cons, id]
          simp only [List.getD_cons_succ]
          have := ih xs k hm
          simpa [Nat.add_comm] using this
        | false =>
          simp only [applyMask, if_neg (Bool.false_ne_true), List.take_succ_cons,
            List.countP_cons, id]
          simp only [List.getD_cons_succ]
          simpa using ih xs k hm

theorem applyMask_findIdx? (m : List Bool) (l : List α) (p : α → Bool) (j : Nat)
    (hfind : l.findIdx? p = some j) (hm : m.getD j false = true) :
    (applyMask m l).findIdx? p = some ((m.take j).countP id) := by
  induction m generalizing l j with
  | nil => simp at hm
  | cons b m ih =>
    cases l with
    | nil => simp at hfind
    | cons x xs =>
      rw [List.findIdx?_cons] at hfind
      by_cases hp : p x = true
      · rw [if_pos hp] at hfind
        have hj : j = 0 := (Option.some.inj hfind).symm
        subst hj
        simp only [List.getD_cons_zero] at hm
        subst hm
        simp [applyMask, List.findIdx?_cons, hp]
      · rw [if_neg hp] at hfind
        rw [List.findIdx?_succ] at hfind
        obtain ⟨k, hk, rfl⟩ := Option.map_eq_some'.mp hfind
        simp only [List.getD_cons_succ] at hm
        cases b with
        | true =>
          rw [show applyMask (true :: m) (x :: xs) = x :: applyMask m xs from rfl,
            List.findIdx?_cons, if_neg hp, List.findIdx?_succ, ih xs k hk hm]
          simp [List.take_succ_cons, List.countP_cons, Nat.add_comm]
        | false =>
          rw [show applyMask (false :: m) (x :: xs) = applyMask m xs from rfl,
            ih xs k hk hm]
          simp [List.take_succ_cons, List.countP_cons]

theorem applyMask_mem (m : List Bool) (l : List α) (x : α)
    (hx : x ∈ applyMask m l) : x ∈ l := by
  induction m generalizing l with
  | nil => simp [applyMask] at hx
  | cons b m ih =>
    cases l with
    | nil => simp [applyMask] at hx
    | cons y ys =>
      cases b with
      | true =>
        rw [show applyMask (true :: m) (y :: ys) = y :: applyMask m ys from rfl] at hx
        rcases List.mem_cons.mp hx with h | h
        · simp [h]
        · simp [ih ys h]
      | false =>
        rw [show applyMask (false :: m) (y :: ys) = applyMask m ys from rfl] at hx
        simp [ih ys hx]

theorem getD_map_of_lt (f : α → β) (l : List α) (j : Nat) (hj : j < l.length)
    (d : α) (b : β) : (l.map f).getD j b = f (l.getD j d) := by
  rw [List.getD_eq_getElem?_getD, List.getD_eq_getElem?_getD,
    List.getElem?_eq_getElem (by simpa using hj), List.getElem?_eq_getElem hj]
  simp

theorem getD_updAt_lt (j : Nat) (f : α → α) (l : List α) (d : α)
    (hj : j < l.length) : (updAt j f l).getD j d = f (l.getD j d) := by
  induction l generalizing j with
  | nil => simp at hj
  | cons x xs ih =>
    cases j with
    | zero => simp [updAt]
    | succ n =>
      simp only [updAt, List.getD_cons_succ]
      exact ih n (by simpa using hj)

theorem colCells_some (df : DataFrame) (nm : String) (j : Nat)
    (hfind : df.header.findIdx? (fun m => m.name = nm) = some j) :
    colCells df nm = some (df.rows.map (fun r => getCell r j)) := by
  simp [colCells, hfind]

theorem colMetaOf_some (df : DataFrame) (nm : String) (j : Nat)
    (hfind : df.header.findIdx? (fun m => m.name = nm) = some j) :
    colMetaOf df nm = some (df.header.getD j default) := by
  simp [colMetaOf, hfind]

theorem numValsAt_eq (df : DataFrame) (j : Nat) :
    numValsAt df j = (df.rows.map (fun r => getCell r j)).filterMap
      (fun c => match c with | Cell.num q => some q | _ => none) := by
  rw [List.filterMap_map]
  rfl

theorem nullCountAt_eq (df : DataFrame) (j : Nat) :
    nullCountAt df j = (df.rows.map (fun r => getCell r j)).countP Cell.isna := by
  rw [List.countP_map]
  rfl

theorem dropColNamed_header_def (df : DataFrame) (nm' : String) :
    (dropColNamed df nm').header =
      applyMask (df.header.map (fun m => m.name != nm')) df.header := rfl

theorem dropColNamed_rows_def (df : DataFrame) (nm' : String) :
    (dropColNamed df nm').rows =
      df.rows.map (applyMask (df.header.map (fun m => m.name != nm'))) := rfl

theorem fillColAt_rows_def (df : DataFrame) (j : Nat) (v : Cell) :
    (fillColAt df j v).rows =
      df.rows.map (updAt j (fun c => if c.isna then v else c)) := rfl

theorem dropColNamed_preserve (df : DataFrame) (nm' nm : String) (hne : nm' ≠ nm) :
    colCells (dropColNamed df nm') nm = colCells df nm ∧
    colMetaOf (dropColNamed df nm') nm = colMetaOf df nm := by
  cases hfind : df.header.findIdx? (fun m => m.name = nm) with
  | none =>
    have hnone : (dropColNamed df nm').header.findIdx? (fun m => m.name = nm) = none := by
      rw [List.findIdx?_eq_none_iff] at hfind ⊢
      intro x hxmem
      exact hfind x (applyMask_mem _ _ _ (dropColNamed_header_def df nm' ▸ hxmem))
    simp [colCells, colMetaOf, hfind, hnone]
  | some j =>
    obtain ⟨hj, hpj, -⟩ := findIdx?_some_spec default hfind
    have hname : (df.header.getD j default).name = nm := by simpa using hpj
    have hm : (df.header.map (fun mm => mm.name != nm')).getD j false = true := by
      rw [getD_map_of_lt _ _ j hj default false, hname]
      simp [bne_iff_ne]
      exact fun h => hne h.symm
    have hfd := applyMask_findIdx? (df.header.map (fun mm => mm.name != nm'))
      df.header _ j hfind hm
    constructor
    · simp only [colCells, dropColNamed_header_def, dropColNamed_rows_def, hfd, hfind,
        Option.map_some']
      congr 1
      rw [List.map_map]
      apply List.map_congr_left
      intro r hr
      exact applyMask_getD _ r j Cell.na hm
    · simp only [colMetaOf, dropColNamed_header_def, hfd, hfind, Option.map_some']
      congr 1
      exact applyMask_getD _ df.header j default hm

theorem fillColAt_preserve (df : DataFrame) (j₂ : Nat) (v : Cell) (nm : String)
    (j : Nat) (hfind : df.header.findIdx? (fun m => m.name = nm) = some j)
    (hne : j ≠ j₂) :
    colCells (fillColAt df j₂ v) nm = colCells df nm ∧
    colMetaOf (fillColAt df j₂ v) nm = colMetaOf df nm := by
  constructor
  · simp only [colCells, fillColAt_header, fillColAt_rows_def, hfind, Option.map_some']
    congr 1
    rw [List.map_map]
    apply List.map_congr_left
    intro r hr
    exact getD_updAt_ne j₂ j _ r Cell.na hne
  · simp only [colMetaOf, fillColAt_header]

theorem fillColAt_colCells_self (df : DataFrame) (j : Nat) (v : Cell) (nm : String)
    (hfind : df.header.findIdx? (fun m => m.name = nm) = some j) (hwf : df.wf) :
    colCells (fillColAt df j v) nm =
      some (df.rows.map (fun r => if (getCell r j).isna then v else getCell r j)) := by
  obtain ⟨hj, -, -⟩ := findIdx?_some_spec default hfind
  simp only [colCells, fillColAt_header, fillColAt_rows_def, hfind, Option.map_some']
  congr 1
  rw [List.map_map]
  apply List.map_congr_left
  intro r hr
  have hjr : j < r.length := by rw [hwf r hr]; exact hj
  exact getD_updAt_lt j _ r Cell.na hjr

theorem processNullCol_preserve (st : DataFrame × List LogEntry) (p : String × Nat)
    (nm : String) (hne : p.1 ≠ nm) :
    colCells (processNullCol st p).1 nm = colCells st.1 nm ∧
    colMetaOf (processNullCol st p).1 nm = colMetaOf st.1 nm := by
  cases hf : st.1.header.findIdx? (fun m => m.name = p.1) with
  | none => simp [processNullCol, hf]
  | some j₂ =>
    obtain ⟨hj₂, hpj₂, -⟩ := findIdx?_some_spec default hf
    have hname₂ : (st.1.header.getD j₂ default).name = p.1 := by simpa using hpj₂
    simp only [processNullCol, hf]
    by_cases hpct : 100 * p.2 > 50 * st.1.rows.length
    · rw [if_pos hpct]
      exact dropColNamed_preserve st.1 p.1 nm hne
    · rw [if_neg hpct]
      have hfill : ∀ v : Cell,
          colCells (fillColAt st.1 j₂ v) nm = colCells st.1 nm ∧
          colMetaOf (fillColAt st.1 j₂ v) nm = colMetaOf st.1 nm := by
        intro v
        cases hfind2 : st.1.header.findIdx? (fun m => m.name = nm) with
        | none =>
          constructor
          · simp [colCells, fillColAt_header, hfind2]
          · simp [colMetaOf, fillColAt_header, hfind2]
        | some j =>
          obtain ⟨hj, hpj, -⟩ := findIdx?_some_spec default hfind2
          have hname : (st.1.header.getD j default).name = nm := by simpa using hpj
          have hjne : j ≠ j₂ := by
            intro h
            apply hne
            rw [← hname₂, ← h, hname]
          exact fillColAt_preserve st.1 j₂ v nm j hfind2 hjne
      by_cases hnum : (st.1.header.getD j₂ default).numeric = true
      · rw [if_pos hnum]
        exact hfill _
      · rw [if_neg hnum]
        exact hfill _

theorem foldl_processNullCol_preserve (ps : List (String × Nat))
    (st : DataFrame × List LogEntry) (nm : String)
    (h : ∀ q ∈ ps, q.1 ≠ nm) :
    colCells (ps.foldl processNullCol st).1 nm = colCells st.1 nm ∧
    colMetaOf (ps.foldl processNullCol st).1 nm = colMetaOf st.1 nm := by
  induction ps generalizing st with
  | nil => exact ⟨rfl, rfl⟩
  | cons p rest ih =>
    rw [List.foldl_cons]
    have hstep := processNullCol_preserve st p nm (h p (by simp))
    have hrest := ih (processNullCol st p) (fun q hq => h q (by simp [hq]))
    exact ⟨hrest.1.trans hstep.1, hrest.2.trans hstep.2⟩

theorem processNullCol_self_median (df : DataFrame) (log : List LogEntry)
    (nm : String) (j : Nat) (cnt : Nat)
    (hfind : df.header.findIdx? (fun m => m.name = nm) = some j)
    (hnum : (df.header.getD j default).numeric = true)
    (hpct : ¬(100 * cnt > 50 * df.rows.length)) :
    processNullCol (df, log) (nm, cnt) =
      (fillColAt df j (Cell.num (medianOf (numValsAt df j))),
        log ++ [LogEntry.filledMedian nm cnt (medianOf (numValsAt df j))]) := by
  simp only [processNullCol, hfind]
  rw [if_neg hpct, if_pos hnum]

theorem foldl_processNullCol_median (ps : List (String × Nat))
    (st : DataFrame × List LogEntry) (nm : String) (cnt : Nat)
    (cells : List Cell) (meta : ColMeta) (N : Nat)
    (hmem : (nm, cnt) ∈ ps)
    (honce : ps.countP (fun q => decide (q.1 = nm)) = 1)
    (hcells : colCells st.1 nm = some cells)
    (hmeta : colMetaOf st.1 nm = some meta)
    (hnum : meta.numeric = true)
    (hN : st.1.rows.length = N)
    (hpct : ¬(100 * cnt > 50 * N))
    (hwf : st.1.wf) :
    colCells (ps.foldl processNullCol st).1 nm =
      some (cells.map (fun c => if c.isna then
        Cell.num (medianOf (cells.filterMap (fun c => match c with
          | Cell.num q => some q | _ => none))) else c)) := by
  induction ps generalizing st with
  | nil => simp at hmem
  | cons p rest ih =>
    rw [List.foldl_cons]
    by_cases hq : p.1 = nm
    · have hrest0 : rest.countP (fun q => decide (q.1 = nm)) = 0 := by
        simpa [List.countP_cons, hq] using honce
      have hp : p = (nm, cnt) := by
        rcases List.mem_cons.mp hmem with h | h
        · exact h.symm
        · exfalso
          have h1 : 0 < rest.countP (fun q => decide (q.1 = nm)) :=
            List.countP_pos_iff.mpr ⟨(nm, cnt), h, by simp⟩
          omega
      subst hp
      have hnomore : ∀ q ∈ rest, q.1 ≠ (nm, cnt).1 := by
        intro q hqmem
        have := List.countP_eq_zero.mp hrest0 q hqmem
        simpa using this
      cases hf : st.1.header.findIdx? (fun m => m.name = (nm, cnt).1) with
      | none => rw [colCells, hf] at hcells; simp at hcells
      | some j =>
        have hcells' := colCells_some st.1 (nm, cnt).1 j hf
        rw [hcells] at hcells'
        have hcellsEq : cells = st.1.rows.map (fun r => getCell r j) :=
          Option.some.inj hcells'
        have hmeta' := colMetaOf_some st.1 (nm, cnt).1 j hf
        rw [hmeta] at hmeta'
        have hmetaEq : meta = st.1.header.getD j default := Option.some.inj hmeta'
        have hnum' : (st.1.header.getD j default).numeric = true := by
          rw [← hmetaEq]; exact hnum
        have hpct' : ¬(100 * (nm, cnt).2 > 50 * st.1.rows.length) := by
          rw [hN]; exact hpct
        have hstep := processNullCol_self_median st.1 st.2 (nm, cnt).1 j (nm, cnt).2
          hf hnum' hpct'
        have hself := fillColAt_colCells_self st.1 j
          (Cell.num (medianOf (numValsAt st.1 j))) (nm, cnt).1 hf hwf
        have hpres := foldl_processNullCol_preserve rest
          (fillColAt st.1 j (Cell.num (medianOf (numValsAt st.1 j))),
            st.2 ++ [LogEntry.filledMedian (nm, cnt).1 (nm, cnt).2
              (medianOf (numValsAt st.1 j))])
          (nm, cnt).1 hnomore
        have hfinal : colCells ((rest.foldl processNullCol
            (processNullCol st ((nm, cnt).1, (nm, cnt).2)))).1 (nm, cnt).1 =
            some (st.1.rows.map (fun r =>
              if (getCell r j).isna then Cell.num (medianOf (numValsAt st.1 j))
              else getCell r j)) := by
          rw [show ((nm, cnt).1, (nm, cnt).2) = (nm, cnt) from rfl, hstep]
          rw [hpres.1]
          exact hself
        rw [hfinal, hcellsEq]
        congr 1
        rw [List.map_map]
        apply List.map_congr_left
        intro r hr
        have hmed : numValsAt st.1 j =
            (st.1.rows.map (fun r => getCell r j)).filterMap
              (fun c => match c with | Cell.num q => some q | _ => none) :=
          numValsAt_eq st.1 j
        simp only [Function.comp_apply, hmed]
    · have hpres := processNullCol_preserve st p nm hq
      have hmem' : (nm, cnt) ∈ rest := by
        rcases List.mem_cons.mp hmem with h | h
        · exact absurd (congrArg Prod.fst h).symm hq
        · exact h
      have honce' : rest.countP (fun q => decide (q.1 = nm)) = 1 := by
        simpa [List.countP_cons, hq] using honce
      exact ih (processNullCol st p) hmem' honce'
        (hpres.1.trans hcells) (hpres.2.trans hmeta)
        ((processNullCol_rows_length st p).trans hN)
        (processNullCol_wf st p hwf)

theorem getD_eq_getElem_of_lt (l : List α) (i : Nat) (hi : i < l.length) (d : α) :
    l.getD i d = l[i] := by
  rw [List.getD_eq_getElem?_getD, List.getElem?_eq_getElem hi]
  rfl

/-- C6: for every well-formed table with unique column names, a numeric
column that still has missing cells, in at most 50% of the rows, after the
table reaches step 3, comes out of step 3 with each missing cell replaced by
the median of the column's non-missing values as they stand at that point —
i.e. computed over the values present *before* step 4's duplicate removal
(step 4 runs on step 3's output in `clean_dataframe`). -/
theorem C6_numeric_fill_is_pre_dedup_median (df : DataFrame) (nm : String) (j : Nat)
    (hwf : df.wf)
    (hnodup : (df.header.map (fun m => m.name)).Nodup)
    (hfind : df.header.findIdx? (fun m => m.name = nm) = some j)
    (hnum : (df.header.getD j default).numeric = true)
    (hpos : 0 < nullCountAt df j)
    (hpct : ¬(100 * nullCountAt df j > 50 * df.rows.length)) :
    colCells (step3 df).1 nm =
      some ((df.rows.map (fun r => getCell r j)).map
        (fun c => if c.isna then Cell.num (medianOf
          ((df.rows.map (fun r => getCell r j)).filterMap
            (fun c => match c with | Cell.num q => some q | _ => none))) else c)) := by
  obtain ⟨hj, hpj, -⟩ := findIdx?_some_spec default hfind
  have hname : (df.header.getD j default).name = nm := by simpa using hpj
  have hnoti : ∀ i, i < df.header.length → i ≠ j →
      ¬((df.header.getD i default).name = nm) := by
    intro i hi hij hcontra
    have hi' : i < (df.header.map (fun m => m.name)).length := by simpa using hi
    have hj' : j < (df.header.map (fun m => m.name)).length := by simpa using hj
    have hgi : (df.header.map (fun m => m.name))[i] = nm := by
      rw [List.getElem_map, ← getD_eq_getElem_of_lt df.header i hi default]
      exact hcontra
    have hgj : (df.header.map (fun m => m.name))[j] = nm := by
      rw [List.getElem_map, ← getD_eq_getElem_of_lt df.header j hj default]
      exact hname
    exact hij ((List.Nodup.getElem_inj_iff hnodup).mp (hgi.trans hgj.symm))
  have hmem : (nm, nullCountAt df j) ∈
      (List.range df.header.length).filterMap (fun i =>
        if nullCountAt df i > 0 then
          some ((df.header.getD i default).name, nullCountAt df i) else none) := by
    rw [List.mem_filterMap]
    refine ⟨j, List.mem_range.mpr hj, ?_⟩
    rw [if_pos hpos, hname]
  have honce : ((List.range df.header.length).filterMap (fun i =>
      if nullCountAt df i > 0 then
        some ((df.header.getD i default).name, nullCountAt df i) else none)).countP
        (fun q => decide (q.1 = nm)) = 1 := by
    rw [List.countP_filterMap]
    have hcong : ∀ i ∈ List.range df.header.length,
        (((fun i => if nullCountAt df i > 0 then
            some ((df.header.getD i default).name, nullCountAt df i) else none) i).map
          (fun q => decide (q.1 = nm))).getD false = true ↔ (i == j) = true := by
      intro i hir
      have hi : i < df.header.length := List.mem_range.mp hir
      by_cases hij : i = j
      · subst hij
        have hname' : (df.header[i]?.getD default).name = nm := by
          rw [← List.getD_eq_getElem?_getD]
          exact hname
        simp [hpos, hname']
      · have hni := hnoti i hi hij
        have hni' : ¬(df.header[i]?.getD default).name = nm := by
          rw [← List.getD_eq_getElem?_getD]
          exact hni
        by_cases hc : nullCountAt df i > 0
        · simp [hc, hni', hij]
        · simp [hc, hij]
    rw [List.countP_congr hcong]
    have : List.countP (fun i => i == j) (List.range df.header.length) =
        (List.range df.header.length).count j := rfl
    rw [this]
    exact List.count_eq_one_of_mem (List.nodup_range _) (List.mem_range.mpr hj)
  rw [show step3 df = ((List.range df.header.length).filterMap (fun i =>
      if nullCountAt df i > 0 then
        some ((df.header.getD i default).name, nullCountAt df i) else none)).foldl
        processNullCol (df, []) from rfl]
  exact foldl_processNullCol_median _ (df, []) nm (nullCountAt df j)
    (df.rows.map (fun r => getCell r j)) (df.header.getD j default) df.rows.length
    hmem honce (colCells_some df nm j hfind) (colMetaOf_some df nm j hfind)
    hnum rfl hpct hwf

/-- C6 (witness): the concrete numeric column of `c6df` satisfies the
hypotheses, and its missing cell is filled with the median of the values
present before deduplication. -/
theorem C6_numeric_fill_is_pre_dedup_median_witness :
    c6df.wf ∧
    (c6df.header.map (fun m => m.name)).Nodup ∧
    c6df.header.findIdx? (fun m => m.name = "a") = some 0 ∧
    (c6df.header.getD 0 default).numeric = true ∧
    0 < nullCountAt c6df 0 ∧
    ¬(100 * nullCountAt c6df 0 > 50 * c6df.rows.length) ∧
    colCells (step3 c6df).1 "a" =
      some ((c6df.rows.map (fun r => getCell r 0)).map
        (fun c => if c.isna then Cell.num (medianOf
          ((c6df.rows.map (fun r => getCell r 0)).filterMap
            (fun c => match c with | Cell.num q => some q | _ => none))) else c)) :=
  ⟨by decide, by decide, by decide, by decide, by decide, by decide,
    C6_numeric_fill_is_pre_dedup_median c6df "a" 0
      (by decide) (by decide) (by decide) (by decide) (by decide) (by decide)⟩

/-!
## Claim C7 — machinery: stripping and cell normalization are idempotent
-/

theorem dropWhile_idem (p : α → Bool) (l : List α) :
    (l.dropWhile p).dropWhile p = l.dropWhile p := by
  induction l with
  | nil => rfl
  | cons x xs ih =>
    by_cases h : p x = true
    · rw [List.dropWhile_cons_of_pos h]
      exact ih
    · rw [List.dropWhile_cons_of_neg (by simpa using h),
        List.dropWhile_cons_of_neg (by simpa using h)]

theorem dropWhile_eq_self_of_prefix (p : α → Bool) (A B : List α)
    (hA : A.dropWhile p = A) (hpre : B <+: A) : B.dropWhile p = B := by
  cases B with
  | nil => rfl
  | cons b bs =>
    obtain ⟨t, ht⟩ := hpre
    have hpb : p b = false := by
      by_contra hb
      have hb' : p b = true := by simpa using hb
      have hdw : A.dropWhile p = (bs ++ t).dropWhile p := by
        rw [← ht]
        simp only [List.cons_append]
        rw [List.dropWhile_cons_of_pos hb']
      have hlen : A.length = (bs ++ t).length + 1 := by
        rw [← ht]
        simp
      have hle : ((bs ++ t).dropWhile p).length ≤ (bs ++ t).length :=
        (List.dropWhile_suffix p).length_le
      rw [hA] at hdw
      rw [hdw] at hlen
      omega
    rw [List.dropWhile_cons_of_neg (by simp [hpb])]

theorem stripStr_data (s : String) :
    (stripStr s).data =
      ((s.data.dropWhile isSpaceChar).reverse.dropWhile isSpaceChar).reverse := rfl

theorem stripStr_left_stripped (s : String) :
    (stripStr s).data.dropWhile isSpaceChar = (stripStr s).data := by
  rw [stripStr_data]
  apply dropWhile_eq_self_of_prefix isSpaceChar (s.data.dropWhile isSpaceChar)
  · exact dropWhile_idem _ _
  · have h := List.reverse_prefix.mpr
      (List.dropWhile_suffix (l := (s.data.dropWhile isSpaceChar).reverse) isSpaceChar)
    simpa using h

theorem stripStr_right_stripped (s : String) :
    (stripStr s).data.reverse.dropWhile isSpaceChar = (stripStr s).data.reverse := by
  rw [stripStr_data, List.reverse_reverse]
  exact dropWhile_idem _ _

theorem stripStr_idem (s : String) : stripStr (stripStr s) = stripStr s := by
  show String.mk ((((stripStr s).data.dropWhile isSpaceChar).reverse.dropWhile
    isSpaceChar).reverse) = stripStr s
  rw [stripStr_left_stripped s, stripStr_right_stripped s, List.reverse_reverse]

theorem normCell_idem (c : Cell) : normCell (normCell c) = normCell c := by
  cases c with
  | na => rfl
  | num q => rfl
  | str s =>
    by_cases h1 : stripStr s = ""
    · have h : normCell (Cell.str s) = Cell.na := by simp [normCell, h1]
      rw [h]
      rfl
    · by_cases h2 : stripStr s ∈ sentinelStrings
      · have h : normCell (Cell.str s) = Cell.na := by simp [normCell, h2]
        rw [h]
        rfl
      · have hkeep : normCell (Cell.str s) = Cell.str (stripStr s) := by
          simp [normCell, h1, h2]
        rw [hkeep]
        simp [normCell, stripStr_idem s, h1, h2]

theorem updAt_oob (j : Nat) (f : α → α) (l : List α) (h : l.length ≤ j) :
    updAt j f l = l := by
  induction l generalizing j with
  | nil => cases j <;> rfl
  | cons x xs ih =>
    cases j with
    | zero => simp at h
    | succ n =>
      simp only [updAt, List.cons.injEq, true_and]
      exact ih n (by simpa using h)

theorem getCell_updAt_normCell (i : Nat) (r : List Cell) :
    getCell (updAt i normCell r) i = normCell (getCell r i) := by
  by_cases h : i < r.length
  · exact getD_updAt_lt i normCell r Cell.na h
  · rw [updAt_oob i normCell r (by omega)]
    have hna : getCell r i = Cell.na := by
      unfold getCell
      rw [List.getD_eq_getElem?_getD, List.getElem?_eq_none (by omega)]
      rfl
    rw [hna]
    rfl

theorem getCell_chain_not_mem (idxs : List Nat) (r : List Cell) (j : Nat)
    (h : j ∉ idxs) :
    getCell (idxs.foldl (fun r i => updAt i normCell r) r) j = getCell r j := by
  induction idxs generalizing r with
  | nil => rfl
  | cons i rest ih =>
    rw [List.foldl_cons]
    rw [ih _ (fun hm => h (by simp [hm]))]
    exact getD_updAt_ne i j normCell r Cell.na (fun he => h (by simp [he]))

theorem getCell_chain_mem (idxs : List Nat) (hnd : idxs.Nodup) (r : List Cell)
    (j : Nat) (h : j ∈ idxs) :
    getCell (idxs.foldl (fun r i => updAt i normCell r) r) j =
      normCell (getCell r j) := by
  induction idxs generalizing r with
  | nil => simp at h
  | cons i rest ih =>
    rw [List.foldl_cons]
    by_cases hij : j = i
    · subst hij
      have hnotin : j ∉ rest := (List.nodup_cons.mp hnd).1
      rw [getCell_chain_not_mem rest _ j hnotin]
      exact getCell_updAt_normCell j r
    · have hjrest : j ∈ rest := by
        rcases List.mem_cons.mp h with h' | h'
        · exact absurd h' hij
        · exact h'
      rw [ih (List.nodup_cons.mp hnd).2 _ hjrest]
      congr 1
      exact getD_updAt_ne i j normCell r Cell.na hij

theorem step5_rows_eq (df : DataFrame) :
    (step5 df).rows = df.rows.map (fun r =>
      ((List.range df.header.length).filter
        (fun j => !(df.header.getD j default).numeric)).foldl
          (fun r j => updAt j normCell r) r) := by
  simp only [step5, step5_fold_comm]

theorem step5_textFixed (df : DataFrame) : textFixed (step5 df) := by
  intro j hj hnum r' hr'
  rw [step5_rows_eq] at hr'
  obtain ⟨r, hr, rfl⟩ := List.mem_map.mp hr'
  have hj' : j < df.header.length := hj
  have hnum' : (df.header.getD j default).numeric = false := hnum
  have hnum'' : (df.header[j]?.getD default).numeric = false := by
    rw [← List.getD_eq_getElem?_getD]
    exact hnum'
  have hmem : j ∈ (List.range df.header.length).filter
      (fun j => !(df.header.getD j default).numeric) := by
    rw [List.mem_filter]
    exact ⟨List.mem_range.mpr hj', by simp [hnum'']⟩
  have hnd : ((List.range df.header.length).filter
      (fun j => !(df.header.getD j default).numeric)).Nodup :=
    (List.nodup_range _).filter _
  rw [getCell_chain_mem _ hnd r j hmem]
  exact normCell_idem _

theorem step6_textFixed (df : DataFrame) (h : textFixed df) :
    textFixed (step6 df).1 := by
  intro j hj hnum r hr
  rw [step6_header] at hj hnum
  exact h j hj hnum r (step6_rows_sub df r hr)

theorem step7_textFixed (df : DataFrame) (h : textFixed df) :
    textFixed (step7 df) := by
  intro j hj hnum r hr
  rw [step7_rows] at hr
  rw [step7_header_length] at hj
  have hnum' : (df.header.getD j default).numeric = false := by
    rw [step7_header_eq] at hnum
    rwa [getD_map_of_lt _ _ j hj default] at hnum
  exact h j hj hnum' r hr

theorem cleanedTable_textFixed (df : DataFrame) : textFixed (cleanedTable df) := by
  rw [cleanedTable]
  exact step7_textFixed _ (step6_textFixed _ (step5_textFixed _))

theorem DataFrame.eq_of (a b : DataFrame) (h1 : a.header = b.header)
    (h2 : a.rows = b.rows) : a = b := by
  cases a
  cases b
  simp_all

theorem step1_noop (V : DataFrame) (h : ∀ r ∈ V.rows, rowAllNA r = false) :
    step1 V = (V, []) := by
  have h0 : V.rows.countP rowAllNA = 0 :=
    List.countP_eq_zero.mpr (fun r hr => by simp [h r hr])
  simp [step1, h0]

theorem step2_noop (V : DataFrame) (h : ∀ j < V.header.length, colAllNA V j = false) :
    step2 V = (V, []) := by
  have h0 : ((List.range V.header.length).map (fun j => colAllNA V j)).countP id = 0 := by
    apply List.countP_eq_zero.mpr
    intro b hb
    obtain ⟨j, hj, rfl⟩ := List.mem_map.mp hb
    simp [h j (List.mem_range.mp hj)]
  simp [step2, h0]

theorem step3_noop (V : DataFrame) (hwf : V.wf) (hna : dfNoNA V = true) :
    step3 V = (V, []) := by
  simp only [dfNoNA, List.all_eq_true] at hna
  have hnc : ∀ j ∈ List.range V.header.length, nullCountAt V j = 0 := by
    intro j hj
    apply List.countP_eq_zero.mpr
    intro r hr
    have hlen : j < r.length := by
      rw [hwf r hr]
      exact List.mem_range.mp hj
    have hcell : getCell r j ∈ r := by
      unfold getCell
      rw [getD_eq_getElem_of_lt r j hlen]
      exact List.getElem_mem _
    have := hna r hr _ hcell
    simpa using this
  have hfm : (List.range V.header.length).filterMap (fun j =>
      if nullCountAt V j > 0 then
        some ((V.header.getD j default).name, nullCountAt V j) else none) = [] := by
    apply List.filterMap_eq_nil_iff.mpr
    intro j hj
    rw [if_neg]
    simp [hnc j hj]
  simp only [step3, hfm, List.foldl_nil]

theorem step4_noop (V : DataFrame) (hnd : V.rows.Nodup) : step4 V = (V, []) := by
  by_cases he : (V.header.isEmpty || V.rows.isEmpty) = true
  · simp only [step4, he, if_true]
  · simp only [step4, he, Bool.false_eq_true, if_false]
    have hd : dedupFirst V.rows = V.rows := dedupFirst_of_nodup _ hnd
    simp [hd]

theorem updAt_normCell_eq_self (i : Nat) (r : List Cell)
    (h : normCell (getCell r i) = getCell r i) : updAt i normCell r = r := by
  induction r generalizing i with
  | nil => cases i <;> rfl
  | cons x xs ih =>
    cases i with
    | zero =>
      have : normCell x = x := h
      simp [updAt, this]
    | succ n =>
      simp only [updAt, List.cons.injEq, true_and]
      exact ih n h

theorem chain_eq_self (idxs : List Nat) (r : List Cell)
    (h : ∀ i ∈ idxs, normCell (getCell r i) = getCell r i) :
    idxs.foldl (fun r i => updAt i normCell r) r = r := by
  induction idxs with
  | nil => rfl
  | cons i rest ih =>
    rw [List.foldl_cons, updAt_normCell_eq_self i r (h i (by simp))]
    exact ih (fun i hi => h i (by simp [hi]))

theorem step5_noop (V : DataFrame) (hfix : textFixed V) : step5 V = V := by
  apply DataFrame.eq_of
  · rfl
  · rw [step5_rows_eq]
    have hid : ∀ r ∈ V.rows, ((List.range V.header.length).filter
        (fun j => !(V.header.getD j default).numeric)).foldl
          (fun r j => updAt j normCell r) r = r := by
      intro r hr
      apply chain_eq_self
      intro i hi
      rw [List.mem_filter] at hi
      exact hfix i (List.mem_range.mp hi.1) (by simpa using hi.2) r hr
    rw [List.map_congr_left hid]
    simp

theorem step6_noop (V : DataFrame) (hna : dfNoNA V = true) : step6 V = (V, []) := by
  simp only [dfNoNA, List.all_eq_true] at hna
  have h0 : V.rows.foldl (fun acc r => acc + r.countP Cell.isna) 0 = 0 := by
    rw [foldl_add_countP]
    simp only [Nat.zero_add]
    apply List.sum_eq_zero
    intro x hx
    obtain ⟨r, hr, rfl⟩ := List.mem_map.mp hx
    apply List.countP_eq_zero.mpr
    intro c hc
    have := hna r hr c hc
    simpa using this
  simp [step6, h0]

theorem step7_noop (V : DataFrame)
    (hnames : ∀ m ∈ V.header, normalizeName m.name = m.name) : step7 V = V := by
  apply DataFrame.eq_of
  · rw [step7_header_eq]
    have hid : ∀ m ∈ V.header,
        ({ m with name := normalizeName m.name } : ColMeta) = m := by
      intro m hm
      rw [hnames m hm]
    rw [List.map_congr_left hid]
    simp
  · rfl

theorem clean_noop (V : DataFrame)
    (hwf : V.wf) (hna : dfNoNA V = true) (hfix : textFixed V)
    (hrows : ∀ r ∈ V.rows, rowAllNA r = false)
    (hcols : ∀ j < V.header.length, colAllNA V j = false)
    (hnodup : V.rows.Nodup)
    (hnames : ∀ m ∈ V.header, normalizeName m.name = m.name) :
    cleanedTable V = V ∧ cleanLog V = [] := by
  have h1 := step1_noop V hrows
  have h2 := step2_noop V hcols
  have h3 := step3_noop V hwf hna
  have h4 := step4_noop V hnodup
  have h5 := step5_noop V hfix
  have h6 := step6_noop V hna
  have h7 := step7_noop V hnames
  constructor
  · simp only [cleanedTable, h1, h2, h3, h4, h5, h6, h7]
  · simp only [cleanLog, h1, h2, h3, h4, h5, h6]
    simp

/-- C7 (amended): cleaning is idempotent on every well-formed table `T` for
which `clean(T)` has no duplicate rows, every row and every column of
`clean(T)` contains a non-missing cell, and every column name of `clean(T)`
is already in normal form: a second run returns the identical table and logs
only the synthetic "No data quality issues found" / "Data was already clean"
marker.  (Unconditionally the claim is false — see the counterexample: step
5's stripping can create duplicates after step 4's dedup already ran; a
zero-column or zero-row output, or a name with exotic whitespace, likewise
changes on a second run.) -/
theorem C7_clean_idempotent_under_conditions (df : DataFrame) (fn fn2 : String)
    (hwf : df.wf)
    (hrows : ∀ r ∈ (clean_dataframe df fn).1.rows, rowAllNA r = false)
    (hcols : ∀ j < (clean_dataframe df fn).1.header.length,
      colAllNA (clean_dataframe df fn).1 j = false)
    (hnodup : (clean_dataframe df fn).1.rows.Nodup)
    (hnames : ∀ m ∈ (clean_dataframe df fn).1.header,
      normalizeName m.name = m.name) :
    (clean_dataframe (clean_dataframe df fn).1 fn2).1 = (clean_dataframe df fn).1 ∧
    (clean_dataframe (clean_dataframe df fn).1 fn2).2.log = [LogEntry.noIssues] := by
  rw [clean_fst_eq df fn] at hrows hcols hnodup hnames ⊢
  have hnoop := clean_noop (cleanedTable df)
    (cleanedTable_wf df hwf) (cleanedTable_noNA df) (cleanedTable_textFixed df)
    hrows hcols hnodup hnames
  constructor
  · rw [clean_fst_eq]
    exact hnoop.1
  · rw [clean_log_eq, hnoop.2]
    simp

/-- C7 (witness): a one-row already-clean frame satisfies the conditions,
and a second cleaning run is the identity with only the synthetic marker. -/
theorem C7_clean_idempotent_under_conditions_witness :
    c7wdf.wf ∧
    (∀ r ∈ (clean_dataframe c7wdf "f.csv").1.rows, rowAllNA r = false) ∧
    (∀ j < (clean_dataframe c7wdf "f.csv").1.header.length,
      colAllNA (clean_dataframe c7wdf "f.csv").1 j = false) ∧
    (clean_dataframe c7wdf "f.csv").1.rows.Nodup ∧
    (∀ m ∈ (clean_dataframe c7wdf "f.csv").1.header,
      normalizeName m.name = m.name) ∧
    ((clean_dataframe (clean_dataframe c7wdf "f.csv").1 "g.csv").1 =
      (clean_dataframe c7wdf "f.csv").1 ∧
    (clean_dataframe (clean_dataframe c7wdf "f.csv").1 "g.csv").2.log =
      [LogEntry.noIssues]) :=
  ⟨by decide, by decide, by decide, by decide, by decide,
    C7_clean_idempotent_under_conditions c7wdf "f.csv" "g.csv"
      (by decide) (by decide) (by decide) (by decide) (by decide)⟩

/-- C7 (counterexample): cleaning is not idempotent as claimed — on a frame
whose second row is `"x "`, the first run strips the cell *after* its dedup
already ran, so the second run removes a duplicate row: the table changes
and the second report logs a removal, not the synthetic marker. -/
theorem C7_clean_idempotent_under_conditions_counterexample :
    (clean_dataframe (clean_dataframe c7cexdf "f.csv").1 "f.csv").1 ≠
      (clean_dataframe c7cexdf "f.csv").1 ∧
    (clean_dataframe (clean_dataframe c7cexdf "f.csv").1 "f.csv").2.log ≠
      [LogEntry.noIssues] ∧
    (clean_dataframe c7cexdf "f.csv").1.rows = [[Cell.str "x"], [Cell.str "x"]] ∧
    (clean_dataframe (clean_dataframe c7cexdf "f.csv").1 "f.csv").1.rows =
      [[Cell.str "x"]] ∧
    (clean_dataframe (clean_dataframe c7cexdf "f.csv").1 "f.csv").2.log =
      [LogEntry.duplicateRows 1] := by
  refine ⟨by decide, by decide, by decide, by decide, by decide⟩
